import Mathlib

/-!
# core/types/confidential.go

A shallow embedding of the two transaction variants of `confidential.go`,
`ConfidentialComputeRequest` and `SuaveTransaction`, and of the `TxData`
method set they implement.

Go pointers and slices are references.  They are embedded as `Ptr` values into
a `Heap` that is passed explicitly: `new(big.Int)` allocates a cell,
`(*big.Int).Set` writes one.  A Go panic (a nil dereference, a method call on a
nil interface) is the result `none`.  A method receiver is a record, that is a
non-nil pointer to the struct.
-/

namespace Confidential

/-! ## Memory -/

/-- Go pointer or slice header: `nil`, or the address of a heap cell. -/
inductive Ptr where
  | nil
  | addr (a : Nat)
  deriving DecidableEq, Repr

/-- The 20 bytes of a `common.Address`, as a number. -/
abbrev Address := Nat

/-- The 32 bytes of a `common.Hash`, as a number. -/
abbrev Hash := Nat

/-- The type `AccessList` is declared outside this file; here only its nil
value (`none`) is produced. -/
abbrev AccessList := Option (List (Address × List Hash))

/-- The memory the transactions point into: the `big.Int` cells, the
`common.Address` cells and the backing arrays of the byte slices, each with
the next address that `new` / `make` hands out. -/
structure Heap where
  ints : Nat → Int
  nextInt : Nat
  addrs : Nat → Address
  nextAddr : Nat
  bytes : Nat → List Nat
  nextBytes : Nat

/-- The integer a `*big.Int` points to; a nil pointer has none. -/
def Heap.intAt (h : Heap) : Ptr → Option Int
  | Ptr.nil => none
  | Ptr.addr a => some (h.ints a)

/-- The address a `*common.Address` points to; a nil pointer has none. -/
def Heap.addrAt (h : Heap) : Ptr → Option Address
  | Ptr.nil => none
  | Ptr.addr a => some (h.addrs a)

/-- The bytes of a `[]byte`; a nil slice has no bytes. -/
def Heap.bytesAt (h : Heap) : Ptr → List Nat
  | Ptr.nil => []
  | Ptr.addr a => h.bytes a

/-- The Go expression `new(big.Int)`: a fresh cell holding zero. -/
def Heap.newInt (h : Heap) : Ptr × Heap :=
  (Ptr.addr h.nextInt,
   { h with ints := fun k => if k = h.nextInt then 0 else h.ints k,
            nextInt := h.nextInt + 1 })

/-- Overwrite of the `big.Int` cell at address `a`. -/
def Heap.writeInt (h : Heap) (a : Nat) (v : Int) : Heap :=
  { h with ints := fun k => if k = a then v else h.ints k }

/-- The method `(*big.Int).Set` of Go's math/big: `z.Set(x)` sets the cell of
`z` to the value of `x` and returns `z`.  Its body is guarded by `z != x`, so
equal pointers (two nils included) return `z` untouched; otherwise a nil `z`
or a nil `x` is dereferenced and the call panics. -/
def big.Set (z x : Ptr) (h : Heap) : Option (Ptr × Heap) :=
  if z = x then some (z, h)
  else
    match z, x with
    | Ptr.addr a, Ptr.addr b => some (Ptr.addr a, h.writeInt a (h.ints b))
    | _, _ => none

/-- The statement `if x != nil { z.Set(x) }` of the two `copy` methods; the
result is the memory after it. -/
def setIfNotNil (z x : Ptr) (h : Heap) : Option Heap :=
  if x ≠ Ptr.nil then (big.Set z x h).map Prod.snd else some h

/-- Modelled from the spec: `copyAddressPtr` is declared outside this file.
Given an optional address it returns an independent optional address: absent
stays absent, present is copied into a fresh cell, never aliased. -/
def copyAddressPtr (a : Ptr) (h : Heap) : Ptr × Heap :=
  match a with
  | Ptr.nil => (Ptr.nil, h)
  | Ptr.addr p =>
    (Ptr.addr h.nextAddr,
     { h with addrs := fun k => if k = h.nextAddr then h.addrs p else h.addrs k,
              nextAddr := h.nextAddr + 1 })

/-- Modelled from the spec: `common.CopyBytes` is declared outside this file.
It returns an independent copy of a byte sequence: a fresh backing array with
the same bytes; an absent (nil) slice stays absent. -/
def common.CopyBytes (b : Ptr) (h : Heap) : Ptr × Heap :=
  match b with
  | Ptr.nil => (Ptr.nil, h)
  | Ptr.addr p =>
    (Ptr.addr h.nextBytes,
     { h with bytes := fun k => if k = h.nextBytes then h.bytes p else h.bytes k,
              nextBytes := h.nextBytes + 1 })

/-! ## The method set `TxData` -/

/-- Modelled from the spec: the discriminant constants are declared outside
this file; each variant occupies one reserved, collision-free tag value. -/
def ConfidentialComputeRequestTxType : Nat := 0x42

/-- Modelled from the spec: the discriminant constants are declared outside
this file; each variant occupies one reserved, collision-free tag value. -/
def SuaveTxType : Nat := 0x50

/-- The interface `TxData`, declared outside this file, with the methods the
two variants of this file implement.  The methods that an envelope forwards to
its inner transaction, and `copy`, answer an `Option`: `none` is a panic. -/
class TxData (α : Type) where
  txType : α → Nat
  copy : α → Heap → Option (α × Heap)
  chainID : α → Ptr
  accessList : α → Option AccessList
  data : α → Ptr
  gas : α → Option Nat
  gasPrice : α → Option Ptr
  gasTipCap : α → Option Ptr
  gasFeeCap : α → Option Ptr
  value : α → Option Ptr
  nonce : α → Option Nat
  to_ : α → Option Ptr
  blobGas : α → Option Nat
  blobGasFeeCap : α → Option Ptr
  blobHashes : α → Option (Option (List Hash))
  effectiveGasPrice : α → Ptr → Ptr → Heap → Option (Ptr × Heap)
  rawSignatureValues : α → Ptr × Ptr × Ptr
  setSignatureValues : α → Ptr → Ptr → Ptr → Ptr → α

/-! ## ConfidentialComputeRequest -/

/-- The struct `ConfidentialComputeRequest`.  `GasPrice`, `Value`, `ChainID`,
`V`, `R`, `S` are `*big.Int`, `To` is a `*common.Address`, `Data` a `[]byte`. -/
structure ConfidentialComputeRequest where
  Nonce : Nat
  GasPrice : Ptr
  Gas : Nat
  To : Ptr
  Value : Ptr
  Data : Ptr
  ExecutionNode : Address
  ChainID : Ptr
  V : Ptr
  R : Ptr
  S : Ptr
  deriving DecidableEq, Repr

/-- The method `copy`: the composite literal is evaluated field by field, then
each non-nil integer of `tx` is copied into the fresh cell with `Set`. -/
def ConfidentialComputeRequest.copy (tx : ConfidentialComputeRequest) (h : Heap) :
    Option (ConfidentialComputeRequest × Heap) := do
  let (toCopy, h) := copyAddressPtr tx.To h
  let (data, h) := common.CopyBytes tx.Data h
  let (value, h) := h.newInt
  let (gasPrice, h) := h.newInt
  let (chainID, h) := h.newInt
  let (v, h) := h.newInt
  let (r, h) := h.newInt
  let (s, h) := h.newInt
  let cpy : ConfidentialComputeRequest :=
    { Nonce := tx.Nonce, To := toCopy, Data := data, Gas := tx.Gas,
      ExecutionNode := tx.ExecutionNode,
      Value := value, GasPrice := gasPrice,
      ChainID := chainID, V := v, R := r, S := s }
  let h ← setIfNotNil cpy.Value tx.Value h
  let h ← setIfNotNil cpy.GasPrice tx.GasPrice h
  let h ← setIfNotNil cpy.ChainID tx.ChainID h
  let h ← setIfNotNil cpy.V tx.V h
  let h ← setIfNotNil cpy.R tx.R h
  let h ← setIfNotNil cpy.S tx.S h
  pure (cpy, h)

def ConfidentialComputeRequest.txType (_ : ConfidentialComputeRequest) : Nat :=
  ConfidentialComputeRequestTxType

def ConfidentialComputeRequest.chainID (tx : ConfidentialComputeRequest) : Ptr := tx.ChainID

def ConfidentialComputeRequest.accessList (_ : ConfidentialComputeRequest) : AccessList := none

def ConfidentialComputeRequest.data (tx : ConfidentialComputeRequest) : Ptr := tx.Data

def ConfidentialComputeRequest.gas (tx : ConfidentialComputeRequest) : Nat := tx.Gas

def ConfidentialComputeRequest.gasPrice (tx : ConfidentialComputeRequest) : Ptr := tx.GasPrice

def ConfidentialComputeRequest.gasTipCap (tx : ConfidentialComputeRequest) : Ptr := tx.GasPrice

def ConfidentialComputeRequest.gasFeeCap (tx : ConfidentialComputeRequest) : Ptr := tx.GasPrice

def ConfidentialComputeRequest.value (tx : ConfidentialComputeRequest) : Ptr := tx.Value

def ConfidentialComputeRequest.nonce (tx : ConfidentialComputeRequest) : Nat := tx.Nonce

/-- The method `to` (a reserved word here, hence the underscore). -/
def ConfidentialComputeRequest.to_ (tx : ConfidentialComputeRequest) : Ptr := tx.To

def ConfidentialComputeRequest.blobGas (_ : ConfidentialComputeRequest) : Nat := 0

def ConfidentialComputeRequest.blobGasFeeCap (_ : ConfidentialComputeRequest) : Ptr := Ptr.nil

def ConfidentialComputeRequest.blobHashes (_ : ConfidentialComputeRequest) :
    Option (List Hash) := none

/-- The method `effectiveGasPrice`: `dst.Set(tx.GasPrice)`; `baseFee` is not
read. -/
def ConfidentialComputeRequest.effectiveGasPrice (tx : ConfidentialComputeRequest)
    (dst : Ptr) (_baseFee : Ptr) (h : Heap) : Option (Ptr × Heap) :=
  big.Set dst tx.GasPrice h

def ConfidentialComputeRequest.rawSignatureValues (tx : ConfidentialComputeRequest) :
    Ptr × Ptr × Ptr :=
  (tx.V, tx.R, tx.S)

/-- The method `setSignatureValues`; the receiver after the assignment is the
result. -/
def ConfidentialComputeRequest.setSignatureValues (tx : ConfidentialComputeRequest)
    (chainID v r s : Ptr) : ConfidentialComputeRequest :=
  { tx with ChainID := chainID, V := v, R := r, S := s }

instance : TxData ConfidentialComputeRequest where
  txType := ConfidentialComputeRequest.txType
  copy := ConfidentialComputeRequest.copy
  chainID := ConfidentialComputeRequest.chainID
  accessList := fun tx => some tx.accessList
  data := ConfidentialComputeRequest.data
  gas := fun tx => some tx.gas
  gasPrice := fun tx => some tx.gasPrice
  gasTipCap := fun tx => some tx.gasTipCap
  gasFeeCap := fun tx => some tx.gasFeeCap
  value := fun tx => some tx.value
  nonce := fun tx => some tx.nonce
  to_ := fun tx => some tx.to_
  blobGas := fun tx => some tx.blobGas
  blobGasFeeCap := fun tx => some tx.blobGasFeeCap
  blobHashes := fun tx => some tx.blobHashes
  effectiveGasPrice := ConfidentialComputeRequest.effectiveGasPrice
  rawSignatureValues := ConfidentialComputeRequest.rawSignatureValues
  setSignatureValues := ConfidentialComputeRequest.setSignatureValues

/-! ## SuaveTransaction -/

/-- The struct `Transaction` is declared outside this file; this file reads
only its field `inner`, an interface value: `none` is the nil interface. -/
structure Transaction (α : Type) where
  inner : Option α
  deriving DecidableEq, Repr

/-- The struct `SuaveTransaction`, wrapping a transaction whose inner variant
has type `α`. -/
structure SuaveTransaction (α : Type) where
  ExecutionNode : Address
  ConfidentialComputeRequest : Transaction α
  ConfidentialComputeResult : Ptr
  ChainID : Ptr
  V : Ptr
  R : Ptr
  S : Ptr
  deriving DecidableEq, Repr

/-- Modelled from the spec: `NewTx` is declared outside this file.  It is the
generic build-from-variant operation, which builds the transaction on a
defensive copy of the inner variant data (the variant's own `copy`); calling
it on a nil interface panics. -/
def NewTx {α : Type} [TxData α] (inner : Option α) (h : Heap) :
    Option (Transaction α × Heap) :=
  match inner with
  | none => none
  | some i =>
    match TxData.copy i h with
    | none => none
    | some (c, h1) => some ({ inner := some c }, h1)

/-- The method `copy` of the envelope. -/
def SuaveTransaction.copy {α : Type} [TxData α] (tx : SuaveTransaction α) (h : Heap) :
    Option (SuaveTransaction α × Heap) := do
  let (request, h) ← NewTx tx.ConfidentialComputeRequest.inner h
  let (result, h) := common.CopyBytes tx.ConfidentialComputeResult h
  let (chainID, h) := h.newInt
  let (v, h) := h.newInt
  let (r, h) := h.newInt
  let (s, h) := h.newInt
  let cpy : SuaveTransaction α :=
    { ExecutionNode := tx.ExecutionNode,
      ConfidentialComputeRequest := request,
      ConfidentialComputeResult := result,
      ChainID := chainID, V := v, R := r, S := s }
  let h ← setIfNotNil cpy.ChainID tx.ChainID h
  let h ← setIfNotNil cpy.V tx.V h
  let h ← setIfNotNil cpy.R tx.R h
  let h ← setIfNotNil cpy.S tx.S h
  pure (cpy, h)

def SuaveTransaction.txType {α : Type} (_ : SuaveTransaction α) : Nat := SuaveTxType

def SuaveTransaction.data {α : Type} (tx : SuaveTransaction α) : Ptr :=
  tx.ConfidentialComputeResult

def SuaveTransaction.chainID {α : Type} (tx : SuaveTransaction α) : Ptr := tx.ChainID

def SuaveTransaction.accessList {α : Type} [TxData α] (tx : SuaveTransaction α) :
    Option AccessList :=
  tx.ConfidentialComputeRequest.inner.bind TxData.accessList

def SuaveTransaction.gas {α : Type} [TxData α] (tx : SuaveTransaction α) : Option Nat :=
  tx.ConfidentialComputeRequest.inner.bind TxData.gas

def SuaveTransaction.gasFeeCap {α : Type} [TxData α] (tx : SuaveTransaction α) : Option Ptr :=
  tx.ConfidentialComputeRequest.inner.bind TxData.gasFeeCap

def SuaveTransaction.gasTipCap {α : Type} [TxData α] (tx : SuaveTransaction α) : Option Ptr :=
  tx.ConfidentialComputeRequest.inner.bind TxData.gasTipCap

def SuaveTransaction.gasPrice {α : Type} [TxData α] (tx : SuaveTransaction α) : Option Ptr :=
  tx.ConfidentialComputeRequest.inner.bind TxData.gasFeeCap

def SuaveTransaction.value {α : Type} [TxData α] (tx : SuaveTransaction α) : Option Ptr :=
  tx.ConfidentialComputeRequest.inner.bind TxData.value

def SuaveTransaction.nonce {α : Type} [TxData α] (tx : SuaveTransaction α) : Option Nat :=
  tx.ConfidentialComputeRequest.inner.bind TxData.nonce

/-- The method `to` (a reserved word here, hence the underscore). -/
def SuaveTransaction.to_ {α : Type} [TxData α] (tx : SuaveTransaction α) : Option Ptr :=
  tx.ConfidentialComputeRequest.inner.bind TxData.to_

def SuaveTransaction.blobGas {α : Type} [TxData α] (tx : SuaveTransaction α) : Option Nat :=
  tx.ConfidentialComputeRequest.inner.bind TxData.blobGas

def SuaveTransaction.blobGasFeeCap {α : Type} [TxData α] (tx : SuaveTransaction α) :
    Option Ptr :=
  tx.ConfidentialComputeRequest.inner.bind TxData.blobGasFeeCap

def SuaveTransaction.blobHashes {α : Type} [TxData α] (tx : SuaveTransaction α) :
    Option (Option (List Hash)) :=
  tx.ConfidentialComputeRequest.inner.bind TxData.blobHashes

def SuaveTransaction.effectiveGasPrice {α : Type} [TxData α] (tx : SuaveTransaction α)
    (dst : Ptr) (baseFee : Ptr) (h : Heap) : Option (Ptr × Heap) :=
  tx.ConfidentialComputeRequest.inner.bind
    (fun i => TxData.effectiveGasPrice i dst baseFee h)

def SuaveTransaction.rawSignatureValues {α : Type} (tx : SuaveTransaction α) :
    Ptr × Ptr × Ptr :=
  (tx.V, tx.R, tx.S)

/-- The method `setSignatureValues` of the envelope; the receiver after the
assignment is the result. -/
def SuaveTransaction.setSignatureValues {α : Type} (tx : SuaveTransaction α)
    (chainID v r s : Ptr) : SuaveTransaction α :=
  { tx with ChainID := chainID, V := v, R := r, S := s }

instance {α : Type} [TxData α] : TxData (SuaveTransaction α) where
  txType := SuaveTransaction.txType
  copy := SuaveTransaction.copy
  chainID := SuaveTransaction.chainID
  accessList := SuaveTransaction.accessList
  data := SuaveTransaction.data
  gas := SuaveTransaction.gas
  gasPrice := SuaveTransaction.gasPrice
  gasTipCap := SuaveTransaction.gasTipCap
  gasFeeCap := SuaveTransaction.gasFeeCap
  value := SuaveTransaction.value
  nonce := SuaveTransaction.nonce
  to_ := SuaveTransaction.to_
  blobGas := SuaveTransaction.blobGas
  blobGasFeeCap := SuaveTransaction.blobGasFeeCap
  blobHashes := SuaveTransaction.blobHashes
  effectiveGasPrice := SuaveTransaction.effectiveGasPrice
  rawSignatureValues := SuaveTransaction.rawSignatureValues
  setSignatureValues := SuaveTransaction.setSignatureValues

/-! ## Well-formed records -/

/-- A pointer is nil or points into the first `n` cells of its store. -/
def Ptr.below (p : Ptr) (n : Nat) : Prop :=
  match p with
  | Ptr.nil => True
  | Ptr.addr a => a < n

instance (p : Ptr) (n : Nat) : Decidable (p.below n) := by
  cases p
  · exact isTrue trivial
  · exact inferInstanceAs (Decidable (_ < _))

/-- The request lives in the memory `h`: each of its pointers is nil or the
address of a cell that `h` has handed out.  In Go every pointer is such. -/
def ConfidentialComputeRequest.allocatedIn (tx : ConfidentialComputeRequest) (h : Heap) : Prop :=
  tx.GasPrice.below h.nextInt ∧ tx.Value.below h.nextInt ∧ tx.ChainID.below h.nextInt ∧
  tx.V.below h.nextInt ∧ tx.R.below h.nextInt ∧ tx.S.below h.nextInt ∧
  tx.To.below h.nextAddr ∧ tx.Data.below h.nextBytes

instance (tx : ConfidentialComputeRequest) (h : Heap) : Decidable (tx.allocatedIn h) := by
  unfold ConfidentialComputeRequest.allocatedIn
  exact inferInstance

/-! ## Proof-side descriptions of the memory after `copy` -/

/-- The memory after the statement `if x != nil { z.Set(x) }` for a non-nil
`z` at address `a`. -/
def Heap.setFrom (h : Heap) (a : Nat) (x : Ptr) : Heap :=
  match x with
  | Ptr.nil => h
  | Ptr.addr b => h.writeInt a (h.ints b)

/-- Six such statements into the cells `n`, ..., `n + 5`. -/
def Heap.setSix (g : Heap) (n : Nat) (x0 x1 x2 x3 x4 x5 : Ptr) : Heap :=
  (((((g.setFrom n x0).setFrom (n + 1) x1).setFrom (n + 2) x2).setFrom (n + 3) x3).setFrom
    (n + 4) x4).setFrom (n + 5) x5

/-- The memory of `ConfidentialComputeRequest.copy` once the composite literal
is built, before the `Set` statements. -/
def ConfidentialComputeRequest.copyAlloc (tx : ConfidentialComputeRequest) (h : Heap) : Heap :=
  (common.CopyBytes tx.Data
    (copyAddressPtr tx.To h).2).2.newInt.2.newInt.2.newInt.2.newInt.2.newInt.2.newInt.2

/-! ## The scenario of the specification -/

/-- A memory holding the cells of the round-trip scenario: the integers 100,
0 and 9999, the address `0xAA`, the byte sequences `[0x01, 0x02]` and
`[0xFF]`. -/
def exampleHeap : Heap where
  ints := fun a => if a = 0 then 100 else if a = 2 then 9999 else 0
  nextInt := 4
  addrs := fun _ => 0xAA
  nextAddr := 1
  bytes := fun a => if a = 0 then [0x01, 0x02] else if a = 1 then [0xFF] else []
  nextBytes := 2

/-- The request of the scenario: `Nonce=5, GasPrice=100, Gas=21000, To=0xAA,
Value=0, Data=[0x01,0x02], ExecutionNode=0xBB`, unsigned. -/
def exampleRequest : ConfidentialComputeRequest where
  Nonce := 5
  GasPrice := Ptr.addr 0
  Gas := 21000
  To := Ptr.addr 0
  Value := Ptr.addr 1
  Data := Ptr.addr 0
  ExecutionNode := 0xBB
  ChainID := Ptr.nil
  V := Ptr.nil
  R := Ptr.nil
  S := Ptr.nil

/-- The envelope of the scenario, with `ConfidentialComputeResult=[0xFF]`,
unsigned. -/
def exampleEnvelope : SuaveTransaction ConfidentialComputeRequest where
  ExecutionNode := 0xBB
  ConfidentialComputeRequest := { inner := some exampleRequest }
  ConfidentialComputeResult := Ptr.addr 1
  ChainID := Ptr.nil
  V := Ptr.nil
  R := Ptr.nil
  S := Ptr.nil

/-- The request of the scenario after `setSignatureValues` with chain ID cell 3
and signature cells `(1, 0, 2)`. -/
def exampleSignedRequest : ConfidentialComputeRequest :=
  exampleRequest.setSignatureValues (Ptr.addr 3) (Ptr.addr 1) (Ptr.addr 0) (Ptr.addr 2)

/-- An envelope around the signed request, itself unsigned. -/
def exampleSignedEnvelope : SuaveTransaction ConfidentialComputeRequest where
  ExecutionNode := 0xBB
  ConfidentialComputeRequest := { inner := some exampleSignedRequest }
  ConfidentialComputeResult := Ptr.addr 1
  ChainID := Ptr.nil
  V := Ptr.nil
  R := Ptr.nil
  S := Ptr.nil

/-! ## Records by value, and changes in place -/

/-- A pointer is nil or points to a cell at or after address `n` of its
store. -/
def Ptr.atLeast (p : Ptr) (n : Nat) : Prop :=
  match p with
  | Ptr.nil => True
  | Ptr.addr a => n ≤ a

instance (p : Ptr) (n : Nat) : Decidable (p.atLeast n) := by
  cases p
  · exact isTrue trivial
  · exact inferInstanceAs (Decidable (_ ≤ _))

/-- The memory `h2` has everything `h` had handed out, unchanged, and maybe
more cells. -/
def Heap.extendedBy (h h2 : Heap) : Prop :=
  h.nextInt ≤ h2.nextInt ∧ h.nextAddr ≤ h2.nextAddr ∧ h.nextBytes ≤ h2.nextBytes ∧
  (∀ k, k < h.nextInt → h2.ints k = h.ints k) ∧
  (∀ k, k < h.nextAddr → h2.addrs k = h.addrs k) ∧
  (∀ k, k < h.nextBytes → h2.bytes k = h.bytes k)

/-- The envelope-level pointers of the envelope (`ChainID`, `V`, `R`, `S` and
the result slice) are nil or point to cells that `h` has handed out. -/
def SuaveTransaction.allocatedIn {α : Type} (tx : SuaveTransaction α) (h : Heap) : Prop :=
  tx.ChainID.below h.nextInt ∧ tx.V.below h.nextInt ∧ tx.R.below h.nextInt ∧
  tx.S.below h.nextInt ∧ tx.ConfidentialComputeResult.below h.nextBytes

instance {α : Type} (tx : SuaveTransaction α) (h : Heap) : Decidable (tx.allocatedIn h) := by
  unfold SuaveTransaction.allocatedIn
  exact inferInstance

/-- What the fields of a request hold, by value: an integer field is `none`
when nil, `To` is `none` when absent, `Data` is its bytes. -/
structure RequestValue where
  Nonce : Nat
  GasPrice : Option Int
  Gas : Nat
  To : Option Address
  Value : Option Int
  Data : List Nat
  ExecutionNode : Address
  ChainID : Option Int
  V : Option Int
  R : Option Int
  S : Option Int
  deriving DecidableEq, Repr

/-- The request by value in the memory `h`. -/
def ConfidentialComputeRequest.valueIn (tx : ConfidentialComputeRequest) (h : Heap) :
    RequestValue :=
  { Nonce := tx.Nonce, GasPrice := h.intAt tx.GasPrice, Gas := tx.Gas,
    To := h.addrAt tx.To, Value := h.intAt tx.Value, Data := h.bytesAt tx.Data,
    ExecutionNode := tx.ExecutionNode, ChainID := h.intAt tx.ChainID,
    V := h.intAt tx.V, R := h.intAt tx.R, S := h.intAt tx.S }

/-- What the fields of an envelope around a request hold, by value. -/
structure EnvelopeValue where
  ExecutionNode : Address
  ConfidentialComputeRequest : Option RequestValue
  ConfidentialComputeResult : List Nat
  ChainID : Option Int
  V : Option Int
  R : Option Int
  S : Option Int
  deriving DecidableEq, Repr

/-- The envelope by value in the memory `h`. -/
def SuaveTransaction.valueIn
    (tx : SuaveTransaction Confidential.ConfidentialComputeRequest) (h : Heap) :
    EnvelopeValue :=
  { ExecutionNode := tx.ExecutionNode,
    ConfidentialComputeRequest := tx.ConfidentialComputeRequest.inner.map (fun q => q.valueIn h),
    ConfidentialComputeResult := h.bytesAt tx.ConfidentialComputeResult,
    ChainID := h.intAt tx.ChainID, V := h.intAt tx.V, R := h.intAt tx.R, S := h.intAt tx.S }

/-- A change in place of one cell: of the integer behind a `*big.Int`, of the
address behind a `*common.Address`, or of the bytes behind a `[]byte`. -/
inductive Mutation where
  | int (a : Nat) (v : Int)
  | address (a : Nat) (v : Address)
  | bytes (a : Nat) (bs : List Nat)

/-- The memory after a change in place. -/
def Heap.mutate (h : Heap) : Mutation → Heap
  | Mutation.int a v => h.writeInt a v
  | Mutation.address a v => { h with addrs := fun k => if k = a then v else h.addrs k }
  | Mutation.bytes a bs => { h with bytes := fun k => if k = a then bs else h.bytes k }

/-- The change is performed on the request: the cell it writes is the one a
reference field of the request points to. -/
def ConfidentialComputeRequest.reaches (tx : ConfidentialComputeRequest) : Mutation → Prop
  | Mutation.int a _ =>
    tx.Value = Ptr.addr a ∨ tx.GasPrice = Ptr.addr a ∨ tx.ChainID = Ptr.addr a ∨
    tx.V = Ptr.addr a ∨ tx.R = Ptr.addr a ∨ tx.S = Ptr.addr a
  | Mutation.address a _ => tx.To = Ptr.addr a
  | Mutation.bytes a _ => tx.Data = Ptr.addr a

/-- The change is performed on the envelope: the cell it writes is the one a
reference field of the envelope, or of its inner request, points to. -/
def SuaveTransaction.reaches (tx : SuaveTransaction Confidential.ConfidentialComputeRequest)
    (m : Mutation) : Prop :=
  (match m with
   | Mutation.int a _ =>
     tx.ChainID = Ptr.addr a ∨ tx.V = Ptr.addr a ∨ tx.R = Ptr.addr a ∨ tx.S = Ptr.addr a
   | Mutation.address _ _ => False
   | Mutation.bytes a _ => tx.ConfidentialComputeResult = Ptr.addr a) ∨
  ∃ q, tx.ConfidentialComputeRequest.inner = some q ∧ q.reaches m

/-- Four guarded `Set` statements into the cells `n`, ..., `n + 3`. -/
def Heap.setFour (g : Heap) (n : Nat) (x0 x1 x2 x3 : Ptr) : Heap :=
  (((g.setFrom n x0).setFrom (n + 1) x1).setFrom (n + 2) x2).setFrom (n + 3) x3

/-- The memory of `SuaveTransaction.copy` once the composite literal is built
on the memory `h1` that the copy of the inner transaction left, before the
`Set` statements. -/
def SuaveTransaction.copyAlloc {α : Type} (tx : SuaveTransaction α) (h1 : Heap) : Heap :=
  (common.CopyBytes tx.ConfidentialComputeResult h1).2.newInt.2.newInt.2.newInt.2.newInt.2

/-! ## More inputs -/

/-- An envelope whose inner transaction is an envelope with an absent inner
transaction. -/
def exampleNestedAbsent : SuaveTransaction (SuaveTransaction ConfidentialComputeRequest) where
  ExecutionNode := 0xBB
  ConfidentialComputeRequest :=
    { inner := some
        { ExecutionNode := 0xBB
          ConfidentialComputeRequest := { inner := none }
          ConfidentialComputeResult := Ptr.addr 1
          ChainID := Ptr.nil
          V := Ptr.nil
          R := Ptr.nil
          S := Ptr.nil } }
  ConfidentialComputeResult := Ptr.addr 1
  ChainID := Ptr.nil
  V := Ptr.nil
  R := Ptr.nil
  S := Ptr.nil

/-- An envelope whose inner transaction is the envelope of the scenario. -/
def exampleNested : SuaveTransaction (SuaveTransaction ConfidentialComputeRequest) where
  ExecutionNode := 0xBB
  ConfidentialComputeRequest := { inner := some exampleEnvelope }
  ConfidentialComputeResult := Ptr.addr 1
  ChainID := Ptr.nil
  V := Ptr.nil
  R := Ptr.nil
  S := Ptr.nil

/-- The request of the scenario with a nil `GasPrice`. -/
def exampleUnpriced : ConfidentialComputeRequest :=
  { exampleRequest with GasPrice := Ptr.nil }

/-- An envelope around the request with a nil `GasPrice`. -/
def exampleUnpricedEnvelope : SuaveTransaction ConfidentialComputeRequest where
  ExecutionNode := 0xBB
  ConfidentialComputeRequest := { inner := some exampleUnpriced }
  ConfidentialComputeResult := Ptr.addr 1
  ChainID := Ptr.nil
  V := Ptr.nil
  R := Ptr.nil
  S := Ptr.nil

/-- An envelope with an absent inner transaction. -/
def exampleAbsent : SuaveTransaction ConfidentialComputeRequest where
  ExecutionNode := 0xBB
  ConfidentialComputeRequest := { inner := none }
  ConfidentialComputeResult := Ptr.addr 1
  ChainID := Ptr.nil
  V := Ptr.nil
  R := Ptr.nil
  S := Ptr.nil

/-- The envelope around the signed request, signed with chain ID cell 0 and
signature cells `(3, 2, 1)`: no integer field of it or of its request is
nil. -/
def exampleFullySigned : SuaveTransaction ConfidentialComputeRequest :=
  exampleSignedEnvelope.setSignatureValues (Ptr.addr 0) (Ptr.addr 3) (Ptr.addr 2) (Ptr.addr 1)

/-- The request that `copy` returns for the request of the scenario. -/
def exampleRequestCopy : ConfidentialComputeRequest :=
  match exampleRequest.copy exampleHeap with
  | some (c, _) => c
  | none => exampleRequest

/-- The memory that this `copy` leaves. -/
def exampleHeapAfterCopy : Heap :=
  match exampleRequest.copy exampleHeap with
  | some (_, h1) => h1
  | none => exampleHeap

/-- The cell that the change writes is one that `h` has handed out. -/
def Mutation.old (m : Mutation) (h : Heap) : Prop :=
  match m with
  | Mutation.int a _ => a < h.nextInt
  | Mutation.address a _ => a < h.nextAddr
  | Mutation.bytes a _ => a < h.nextBytes

/-! ## What `copy` returns -/

/-- The request that `ConfidentialComputeRequest.copy` returns. -/
def ConfidentialComputeRequest.copied (tx : ConfidentialComputeRequest) (h : Heap) :
    ConfidentialComputeRequest :=
  { Nonce := tx.Nonce, To := (copyAddressPtr tx.To h).1,
    Data := (common.CopyBytes tx.Data (copyAddressPtr tx.To h).2).1, Gas := tx.Gas,
    ExecutionNode := tx.ExecutionNode,
    Value := Ptr.addr h.nextInt, GasPrice := Ptr.addr (h.nextInt + 1),
    ChainID := Ptr.addr (h.nextInt + 2), V := Ptr.addr (h.nextInt + 3),
    R := Ptr.addr (h.nextInt + 4), S := Ptr.addr (h.nextInt + 5) }

/-- The memory that `ConfidentialComputeRequest.copy` leaves. -/
def ConfidentialComputeRequest.copiedHeap (tx : ConfidentialComputeRequest) (h : Heap) : Heap :=
  (tx.copyAlloc h).setSix h.nextInt tx.Value tx.GasPrice tx.ChainID tx.V tx.R tx.S

/-- The envelope that `SuaveTransaction.copy` returns when the copy of the
inner transaction returned `I2` and left the memory `h1`. -/
def SuaveTransaction.copied {α : Type} (tx : SuaveTransaction α) (I2 : α) (h1 : Heap) :
    SuaveTransaction α :=
  { ExecutionNode := tx.ExecutionNode,
    ConfidentialComputeRequest := { inner := some I2 },
    ConfidentialComputeResult := (common.CopyBytes tx.ConfidentialComputeResult h1).1,
    ChainID := Ptr.addr h1.nextInt, V := Ptr.addr (h1.nextInt + 1),
    R := Ptr.addr (h1.nextInt + 2), S := Ptr.addr (h1.nextInt + 3) }

/-- The memory that `SuaveTransaction.copy` leaves in that case. -/
def SuaveTransaction.copiedHeap {α : Type} (tx : SuaveTransaction α) (h1 : Heap) : Heap :=
  (tx.copyAlloc h1).setFour h1.nextInt tx.ChainID tx.V tx.R tx.S

/-- The value of a request with each nil integer field replaced by zero. -/
def RequestValue.withZeroDefaults (v : RequestValue) : RequestValue :=
  { v with GasPrice := some (v.GasPrice.getD 0), Value := some (v.Value.getD 0),
           ChainID := some (v.ChainID.getD 0), V := some (v.V.getD 0),
           R := some (v.R.getD 0), S := some (v.S.getD 0) }

/-- The value of an envelope with each nil integer field, of the envelope and
of its inner request, replaced by zero. -/
def EnvelopeValue.withZeroDefaults (v : EnvelopeValue) : EnvelopeValue :=
  { v with ConfidentialComputeRequest :=
             v.ConfidentialComputeRequest.map RequestValue.withZeroDefaults,
           ChainID := some (v.ChainID.getD 0), V := some (v.V.getD 0),
           R := some (v.R.getD 0), S := some (v.S.getD 0) }

/-! ## Lemmas on the memory operations -/

theorem Heap.writeInt_self (h : Heap) (a : Nat) : h.writeInt a (h.ints a) = h := by
  cases h
  simp only [Heap.writeInt, Heap.mk.injEq, and_true, true_and]
  funext k
  by_cases hk : k = a
  · simp [hk]
  · simp [hk]

theorem setIfNotNil_addr (h : Heap) (a : Nat) (x : Ptr) :
    setIfNotNil (Ptr.addr a) x h = some (h.setFrom a x) := by
  cases x with
  | nil => simp [setIfNotNil, Heap.setFrom]
  | addr b =>
    by_cases hab : a = b
    · subst hab
      simp [setIfNotNil, big.Set, Heap.setFrom, Heap.writeInt_self]
    · simp [setIfNotNil, big.Set, Heap.setFrom, hab]

theorem Heap.setFrom_ints_of_ne (h : Heap) (a : Nat) (x : Ptr) (k : Nat) (hk : k ≠ a) :
    (h.setFrom a x).ints k = h.ints k := by
  cases x with
  | nil => rfl
  | addr b => simp [Heap.setFrom, Heap.writeInt, hk]

theorem Heap.setFrom_ints_nil (h : Heap) (a : Nat) (k : Nat) :
    (h.setFrom a Ptr.nil).ints k = h.ints k := rfl

theorem Heap.setFrom_ints_addr (h : Heap) (a b : Nat) :
    (h.setFrom a (Ptr.addr b)).ints a = h.ints b := by
  simp [Heap.setFrom, Heap.writeInt]

/-- The `Set` statements write integers only. -/
theorem Heap.setFrom_others (h : Heap) (a : Nat) (x : Ptr) :
    (h.setFrom a x).addrs = h.addrs ∧ (h.setFrom a x).bytes = h.bytes := by
  cases x <;> simp [Heap.setFrom, Heap.writeInt]

theorem Heap.setSix_others (g : Heap) (n : Nat) (x0 x1 x2 x3 x4 x5 : Ptr) :
    (g.setSix n x0 x1 x2 x3 x4 x5).addrs = g.addrs ∧
    (g.setSix n x0 x1 x2 x3 x4 x5).bytes = g.bytes := by
  simp only [Heap.setSix, (Heap.setFrom_others _ _ _).1, (Heap.setFrom_others _ _ _).2,
    and_self]

/-- A cell whose source pointer is nil keeps what it held before the six
statements. -/
theorem Heap.setSix_ints_nil (g : Heap) (n : Nat) (x0 x1 x2 x3 x4 x5 : Ptr) :
    (x0 = Ptr.nil → (g.setSix n x0 x1 x2 x3 x4 x5).ints n = g.ints n) ∧
    (x1 = Ptr.nil → (g.setSix n x0 x1 x2 x3 x4 x5).ints (n + 1) = g.ints (n + 1)) ∧
    (x2 = Ptr.nil → (g.setSix n x0 x1 x2 x3 x4 x5).ints (n + 2) = g.ints (n + 2)) ∧
    (x3 = Ptr.nil → (g.setSix n x0 x1 x2 x3 x4 x5).ints (n + 3) = g.ints (n + 3)) ∧
    (x4 = Ptr.nil → (g.setSix n x0 x1 x2 x3 x4 x5).ints (n + 4) = g.ints (n + 4)) ∧
    (x5 = Ptr.nil → (g.setSix n x0 x1 x2 x3 x4 x5).ints (n + 5) = g.ints (n + 5)) := by
  refine ⟨?_, ?_, ?_, ?_, ?_, ?_⟩ <;> intro hx <;> subst hx <;>
    simp (disch := omega) only [Heap.setSix, Heap.setFrom_ints_of_ne, Heap.setFrom_ints_nil]

/-- A cell whose source pointer is an address below `n` receives the integer
the memory held there before the six statements. -/
theorem Heap.setSix_ints_addr (g : Heap) (n : Nat) (x0 x1 x2 x3 x4 x5 : Ptr) (b : Nat)
    (hb : b < n) :
    (x0 = Ptr.addr b → (g.setSix n x0 x1 x2 x3 x4 x5).ints n = g.ints b) ∧
    (x1 = Ptr.addr b → (g.setSix n x0 x1 x2 x3 x4 x5).ints (n + 1) = g.ints b) ∧
    (x2 = Ptr.addr b → (g.setSix n x0 x1 x2 x3 x4 x5).ints (n + 2) = g.ints b) ∧
    (x3 = Ptr.addr b → (g.setSix n x0 x1 x2 x3 x4 x5).ints (n + 3) = g.ints b) ∧
    (x4 = Ptr.addr b → (g.setSix n x0 x1 x2 x3 x4 x5).ints (n + 4) = g.ints b) ∧
    (x5 = Ptr.addr b → (g.setSix n x0 x1 x2 x3 x4 x5).ints (n + 5) = g.ints b) := by
  refine ⟨?_, ?_, ?_, ?_, ?_, ?_⟩ <;> intro hx <;> subst hx <;>
    simp (disch := omega) only [Heap.setSix, Heap.setFrom_ints_of_ne, Heap.setFrom_ints_addr]

/-- A cell below `n` is not touched by the six statements. -/
theorem Heap.setSix_ints_below (g : Heap) (n : Nat) (x0 x1 x2 x3 x4 x5 : Ptr) (k : Nat)
    (hk : k < n) : (g.setSix n x0 x1 x2 x3 x4 x5).ints k = g.ints k := by
  simp (disch := omega) only [Heap.setSix, Heap.setFrom_ints_of_ne]

theorem copyAddressPtr_ints (a : Ptr) (h : Heap) :
    (copyAddressPtr a h).2.ints = h.ints ∧ (copyAddressPtr a h).2.nextInt = h.nextInt := by
  cases a <;> simp [copyAddressPtr]

theorem CopyBytes_ints (b : Ptr) (h : Heap) :
    (common.CopyBytes b h).2.ints = h.ints ∧ (common.CopyBytes b h).2.nextInt = h.nextInt := by
  cases b <;> simp [common.CopyBytes]

/-- The copy of an optional address is absent exactly when the address is, and
points to an equal address otherwise. -/
theorem copyAddressPtr_addrAt (a : Ptr) (h : Heap) :
    ((copyAddressPtr a h).1 = Ptr.nil ↔ a = Ptr.nil) ∧
    (copyAddressPtr a h).2.addrAt (copyAddressPtr a h).1 = h.addrAt a := by
  cases a <;> simp [copyAddressPtr, Heap.addrAt]

theorem CopyBytes_addrs (b : Ptr) (h : Heap) : (common.CopyBytes b h).2.addrs = h.addrs := by
  cases b <;> simp [common.CopyBytes]

/-- The copy of a byte sequence has the same bytes. -/
theorem CopyBytes_bytesAt (b : Ptr) (h : Heap) :
    (common.CopyBytes b h).2.bytesAt (common.CopyBytes b h).1 = h.bytesAt b := by
  cases b <;> simp [common.CopyBytes, Heap.bytesAt]

theorem Heap.newInt_others (h : Heap) :
    h.newInt.2.addrs = h.addrs ∧ h.newInt.2.bytes = h.bytes := ⟨rfl, rfl⟩

/-! ## Lemmas on `ConfidentialComputeRequest.copy` -/

theorem ConfidentialComputeRequest.copyAlloc_ints (tx : ConfidentialComputeRequest) (h : Heap)
    (k : Nat) :
    (tx.copyAlloc h).ints k = if h.nextInt ≤ k ∧ k < h.nextInt + 6 then 0 else h.ints k := by
  simp only [ConfidentialComputeRequest.copyAlloc, Heap.newInt, (CopyBytes_ints _ _).1,
    (CopyBytes_ints _ _).2, (copyAddressPtr_ints _ _).1, (copyAddressPtr_ints _ _).2]
  split_ifs <;> first | rfl | omega

theorem ConfidentialComputeRequest.copyAlloc_others (tx : ConfidentialComputeRequest)
    (h : Heap) :
    (tx.copyAlloc h).addrs = (copyAddressPtr tx.To h).2.addrs ∧
    (tx.copyAlloc h).bytes = (common.CopyBytes tx.Data (copyAddressPtr tx.To h).2).2.bytes := by
  simp only [ConfidentialComputeRequest.copyAlloc, (Heap.newInt_others _).1,
    (Heap.newInt_others _).2, CopyBytes_addrs, and_self]

/-- The method `copy` always returns, and this is what it returns. -/
theorem ConfidentialComputeRequest.copy_eq (tx : ConfidentialComputeRequest) (h : Heap) :
    tx.copy h = some
      ({ Nonce := tx.Nonce, To := (copyAddressPtr tx.To h).1,
         Data := (common.CopyBytes tx.Data (copyAddressPtr tx.To h).2).1, Gas := tx.Gas,
         ExecutionNode := tx.ExecutionNode,
         Value := Ptr.addr h.nextInt, GasPrice := Ptr.addr (h.nextInt + 1),
         ChainID := Ptr.addr (h.nextInt + 2), V := Ptr.addr (h.nextInt + 3),
         R := Ptr.addr (h.nextInt + 4), S := Ptr.addr (h.nextInt + 5) },
       (tx.copyAlloc h).setSix h.nextInt tx.Value tx.GasPrice tx.ChainID tx.V tx.R tx.S) := by
  simp only [ConfidentialComputeRequest.copy, Heap.newInt, setIfNotNil_addr,
    ConfidentialComputeRequest.copyAlloc, Heap.setSix, (CopyBytes_ints _ _).2,
    (copyAddressPtr_ints _ _).2]
  rfl

/-- An integer field that `tx` holds in allocated memory has the same value in
the copy. -/
theorem ConfidentialComputeRequest.copy_int_value (tx : ConfidentialComputeRequest) (h : Heap)
    (x : Ptr) (hx : x.below h.nextInt) (hne : x ≠ Ptr.nil) (i : Nat)
    (hread : ∀ b, b < h.nextInt → x = Ptr.addr b →
      ((tx.copyAlloc h).setSix h.nextInt tx.Value tx.GasPrice tx.ChainID tx.V tx.R tx.S).ints
        (h.nextInt + i) = (tx.copyAlloc h).ints b) :
    ((tx.copyAlloc h).setSix h.nextInt tx.Value tx.GasPrice tx.ChainID tx.V tx.R tx.S).intAt
      (Ptr.addr (h.nextInt + i)) = h.intAt x := by
  cases x with
  | nil => exact absurd rfl hne
  | addr b =>
    have hb : b < h.nextInt := hx
    have hnot : ¬ (h.nextInt ≤ b ∧ b < h.nextInt + 6) := by omega
    simp only [Heap.intAt, hread b hb rfl, tx.copyAlloc_ints, hnot, if_false]

/-- The call `z.Set(x)` on a cell `z` at address `a` and a pointer `x` to the
integer `g` returns `z` and leaves `g` in the cell. -/
theorem big.Set_value (a : Nat) (x : Ptr) (h : Heap) (g : Int) (hx : h.intAt x = some g) :
    ∃ h', big.Set (Ptr.addr a) x h = some (Ptr.addr a, h') ∧
      h'.intAt (Ptr.addr a) = some g := by
  cases x with
  | nil => simp [Heap.intAt] at hx
  | addr b =>
    simp only [Heap.intAt, Option.some.injEq] at hx
    by_cases hab : a = b
    · subst hab
      exact ⟨h, by simp [big.Set], by simp [Heap.intAt, hx]⟩
    · refine ⟨h.writeInt a (h.ints b), ?_, ?_⟩
      · have hne : Ptr.addr a ≠ Ptr.addr b := by
          intro hc
          exact hab (Ptr.addr.inj hc)
        simp [big.Set, hne]
      · simp [Heap.intAt, Heap.writeInt, hx]

theorem Heap.extendedBy_refl (h : Heap) : h.extendedBy h :=
  ⟨Nat.le_refl _, Nat.le_refl _, Nat.le_refl _, fun _ _ => rfl, fun _ _ => rfl, fun _ _ => rfl⟩

theorem Heap.extendedBy_trans (h h1 h2 : Heap) (h01 : h.extendedBy h1)
    (h12 : h1.extendedBy h2) : h.extendedBy h2 := by
  obtain ⟨a1, a2, a3, a4, a5, a6⟩ := h01
  obtain ⟨b1, b2, b3, b4, b5, b6⟩ := h12
  refine ⟨by omega, by omega, by omega, ?_, ?_, ?_⟩
  · intro k hk
    rw [b4 k (by omega), a4 k hk]
  · intro k hk
    rw [b5 k (by omega), a5 k hk]
  · intro k hk
    rw [b6 k (by omega), a6 k hk]

theorem Ptr.below_mono (p : Ptr) (n m : Nat) (hp : p.below n) (hnm : n ≤ m) : p.below m := by
  cases p with
  | nil => trivial
  | addr a => exact Nat.lt_of_lt_of_le hp hnm

/-- What a pointer into the handed-out cells holds does not change when the
memory grows. -/
theorem Heap.extendedBy_at (h h2 : Heap) (hext : h.extendedBy h2) (p : Ptr) :
    (p.below h.nextInt → h2.intAt p = h.intAt p) ∧
    (p.below h.nextAddr → h2.addrAt p = h.addrAt p) ∧
    (p.below h.nextBytes → h2.bytesAt p = h.bytesAt p) := by
  obtain ⟨-, -, -, a4, a5, a6⟩ := hext
  cases p with
  | nil => exact ⟨fun _ => rfl, fun _ => rfl, fun _ => rfl⟩
  | addr a =>
    refine ⟨fun hp => ?_, fun hp => ?_, fun hp => ?_⟩
    · simp only [Heap.intAt, a4 a hp]
    · simp only [Heap.addrAt, a5 a hp]
    · simp only [Heap.bytesAt, a6 a hp]

theorem Heap.setFrom_next (h : Heap) (a : Nat) (x : Ptr) :
    (h.setFrom a x).nextInt = h.nextInt ∧ (h.setFrom a x).nextAddr = h.nextAddr ∧
    (h.setFrom a x).nextBytes = h.nextBytes := by
  cases x <;> simp [Heap.setFrom, Heap.writeInt]

theorem Heap.setSix_next (g : Heap) (n : Nat) (x0 x1 x2 x3 x4 x5 : Ptr) :
    (g.setSix n x0 x1 x2 x3 x4 x5).nextInt = g.nextInt ∧
    (g.setSix n x0 x1 x2 x3 x4 x5).nextAddr = g.nextAddr ∧
    (g.setSix n x0 x1 x2 x3 x4 x5).nextBytes = g.nextBytes := by
  simp only [Heap.setSix, (Heap.setFrom_next _ _ _).1, (Heap.setFrom_next _ _ _).2.1,
    (Heap.setFrom_next _ _ _).2.2, and_self]

theorem Heap.setFour_next (g : Heap) (n : Nat) (x0 x1 x2 x3 : Ptr) :
    (g.setFour n x0 x1 x2 x3).nextInt = g.nextInt ∧
    (g.setFour n x0 x1 x2 x3).nextAddr = g.nextAddr ∧
    (g.setFour n x0 x1 x2 x3).nextBytes = g.nextBytes := by
  simp only [Heap.setFour, (Heap.setFrom_next _ _ _).1, (Heap.setFrom_next _ _ _).2.1,
    (Heap.setFrom_next _ _ _).2.2, and_self]

theorem Heap.setFour_others (g : Heap) (n : Nat) (x0 x1 x2 x3 : Ptr) :
    (g.setFour n x0 x1 x2 x3).addrs = g.addrs ∧ (g.setFour n x0 x1 x2 x3).bytes = g.bytes := by
  simp only [Heap.setFour, (Heap.setFrom_others _ _ _).1, (Heap.setFrom_others _ _ _).2,
    and_self]

/-- A cell whose source pointer is nil keeps what it held before the four
statements. -/
theorem Heap.setFour_ints_nil (g : Heap) (n : Nat) (x0 x1 x2 x3 : Ptr) :
    (x0 = Ptr.nil → (g.setFour n x0 x1 x2 x3).ints n = g.ints n) ∧
    (x1 = Ptr.nil → (g.setFour n x0 x1 x2 x3).ints (n + 1) = g.ints (n + 1)) ∧
    (x2 = Ptr.nil → (g.setFour n x0 x1 x2 x3).ints (n + 2) = g.ints (n + 2)) ∧
    (x3 = Ptr.nil → (g.setFour n x0 x1 x2 x3).ints (n + 3) = g.ints (n + 3)) := by
  refine ⟨?_, ?_, ?_, ?_⟩ <;> intro hx <;> subst hx <;>
    simp (disch := omega) only [Heap.setFour, Heap.setFrom_ints_of_ne, Heap.setFrom_ints_nil]

/-- A cell whose source pointer is an address below `n` receives the integer
the memory held there before the four statements. -/
theorem Heap.setFour_ints_addr (g : Heap) (n : Nat) (x0 x1 x2 x3 : Ptr) (b : Nat)
    (hb : b < n) :
    (x0 = Ptr.addr b → (g.setFour n x0 x1 x2 x3).ints n = g.ints b) ∧
    (x1 = Ptr.addr b → (g.setFour n x0 x1 x2 x3).ints (n + 1) = g.ints b) ∧
    (x2 = Ptr.addr b → (g.setFour n x0 x1 x2 x3).ints (n + 2) = g.ints b) ∧
    (x3 = Ptr.addr b → (g.setFour n x0 x1 x2 x3).ints (n + 3) = g.ints b) := by
  refine ⟨?_, ?_, ?_, ?_⟩ <;> intro hx <;> subst hx <;>
    simp (disch := omega) only [Heap.setFour, Heap.setFrom_ints_of_ne, Heap.setFrom_ints_addr]

/-- A cell below `n` is not touched by the four statements. -/
theorem Heap.setFour_ints_below (g : Heap) (n : Nat) (x0 x1 x2 x3 : Ptr) (k : Nat)
    (hk : k < n) : (g.setFour n x0 x1 x2 x3).ints k = g.ints k := by
  simp (disch := omega) only [Heap.setFour, Heap.setFrom_ints_of_ne]

/-- The helper `copyAddressPtr` only adds a cell. -/
theorem copyAddressPtr_extendedBy (a : Ptr) (h : Heap) :
    h.extendedBy (copyAddressPtr a h).2 ∧ (copyAddressPtr a h).1.atLeast h.nextAddr ∧
    (copyAddressPtr a h).1.below (copyAddressPtr a h).2.nextAddr := by
  cases a with
  | nil => exact ⟨h.extendedBy_refl, trivial, trivial⟩
  | addr p =>
    refine ⟨⟨Nat.le_refl _, Nat.le_succ _, Nat.le_refl _, fun _ _ => rfl, ?_, fun _ _ => rfl⟩,
      Nat.le_refl _, Nat.lt_succ_self _⟩
    intro k hk
    have hne : k ≠ h.nextAddr := by omega
    simp [copyAddressPtr, hne]

/-- The helper `common.CopyBytes` only adds a backing array. -/
theorem CopyBytes_extendedBy (b : Ptr) (h : Heap) :
    h.extendedBy (common.CopyBytes b h).2 ∧ (common.CopyBytes b h).1.atLeast h.nextBytes ∧
    (common.CopyBytes b h).1.below (common.CopyBytes b h).2.nextBytes := by
  cases b with
  | nil => exact ⟨h.extendedBy_refl, trivial, trivial⟩
  | addr p =>
    refine ⟨⟨Nat.le_refl _, Nat.le_refl _, Nat.le_succ _, fun _ _ => rfl, fun _ _ => rfl, ?_⟩,
      Nat.le_refl _, Nat.lt_succ_self _⟩
    intro k hk
    have hne : k ≠ h.nextBytes := by omega
    simp [common.CopyBytes, hne]

/-- The expression `new(big.Int)` only adds a cell. -/
theorem Heap.newInt_extendedBy (h : Heap) : h.extendedBy h.newInt.2 := by
  refine ⟨Nat.le_succ _, Nat.le_refl _, Nat.le_refl _, ?_, fun _ _ => rfl, fun _ _ => rfl⟩
  intro k hk
  have hne : k ≠ h.nextInt := by omega
  simp [Heap.newInt, hne]

/-! ## More lemmas on `ConfidentialComputeRequest.copy` -/

theorem ConfidentialComputeRequest.copyAlloc_extendedBy (tx : ConfidentialComputeRequest)
    (h : Heap) : h.extendedBy (tx.copyAlloc h) ∧ (tx.copyAlloc h).nextInt = h.nextInt + 6 := by
  refine ⟨?_, ?_⟩
  · unfold ConfidentialComputeRequest.copyAlloc
    refine Heap.extendedBy_trans _ _ _ ?_ (Heap.newInt_extendedBy _)
    refine Heap.extendedBy_trans _ _ _ ?_ (Heap.newInt_extendedBy _)
    refine Heap.extendedBy_trans _ _ _ ?_ (Heap.newInt_extendedBy _)
    refine Heap.extendedBy_trans _ _ _ ?_ (Heap.newInt_extendedBy _)
    refine Heap.extendedBy_trans _ _ _ ?_ (Heap.newInt_extendedBy _)
    refine Heap.extendedBy_trans _ _ _ ?_ (Heap.newInt_extendedBy _)
    exact Heap.extendedBy_trans _ _ _ (copyAddressPtr_extendedBy _ _).1
      (CopyBytes_extendedBy _ _).1
  · simp only [ConfidentialComputeRequest.copyAlloc, Heap.newInt, (CopyBytes_ints _ _).2,
      (copyAddressPtr_ints _ _).2]

/-- The six statements of `copy` write only cells at or after `n`. -/
theorem Heap.setSix_extendedBy (h g : Heap) (n : Nat) (x0 x1 x2 x3 x4 x5 : Ptr)
    (hg : h.extendedBy g) (hn : h.nextInt ≤ n) :
    h.extendedBy (g.setSix n x0 x1 x2 x3 x4 x5) := by
  obtain ⟨a1, a2, a3, a4, a5, a6⟩ := hg
  refine ⟨?_, ?_, ?_, ?_, ?_, ?_⟩
  · rw [(Heap.setSix_next _ _ _ _ _ _ _ _).1]; exact a1
  · rw [(Heap.setSix_next _ _ _ _ _ _ _ _).2.1]; exact a2
  · rw [(Heap.setSix_next _ _ _ _ _ _ _ _).2.2]; exact a3
  · intro k hk
    rw [Heap.setSix_ints_below _ _ _ _ _ _ _ _ k (by omega)]
    exact a4 k hk
  · intro k hk
    rw [(Heap.setSix_others _ _ _ _ _ _ _ _).1]
    exact a5 k hk
  · intro k hk
    rw [(Heap.setSix_others _ _ _ _ _ _ _ _).2]
    exact a6 k hk

/-- The four statements of the envelope `copy` write only cells at or after
`n`. -/
theorem Heap.setFour_extendedBy (h g : Heap) (n : Nat) (x0 x1 x2 x3 : Ptr)
    (hg : h.extendedBy g) (hn : h.nextInt ≤ n) :
    h.extendedBy (g.setFour n x0 x1 x2 x3) := by
  obtain ⟨a1, a2, a3, a4, a5, a6⟩ := hg
  refine ⟨?_, ?_, ?_, ?_, ?_, ?_⟩
  · rw [(Heap.setFour_next _ _ _ _ _ _).1]; exact a1
  · rw [(Heap.setFour_next _ _ _ _ _ _).2.1]; exact a2
  · rw [(Heap.setFour_next _ _ _ _ _ _).2.2]; exact a3
  · intro k hk
    rw [Heap.setFour_ints_below _ _ _ _ _ _ k (by omega)]
    exact a4 k hk
  · intro k hk
    rw [(Heap.setFour_others _ _ _ _ _ _).1]
    exact a5 k hk
  · intro k hk
    rw [(Heap.setFour_others _ _ _ _ _ _).2]
    exact a6 k hk

/-- The copy of a request leaves the memory handed out before as it was. -/
theorem ConfidentialComputeRequest.copy_extendedBy (tx : ConfidentialComputeRequest)
    (h : Heap) :
    h.extendedBy
      ((tx.copyAlloc h).setSix h.nextInt tx.Value tx.GasPrice tx.ChainID tx.V tx.R tx.S) :=
  Heap.setSix_extendedBy h _ _ _ _ _ _ _ _ (tx.copyAlloc_extendedBy h).1 (Nat.le_refl _)

/-! ## Lemmas on `SuaveTransaction.copy` -/

/-- The method `copy` of the envelope returns when the copy of its inner
transaction does, and this is what it returns. -/
theorem SuaveTransaction.env_copy_eq {α : Type} [TxData α] (tx : SuaveTransaction α) (h : Heap)
    (I I2 : α) (h1 : Heap) (hI : tx.ConfidentialComputeRequest.inner = some I)
    (hcopy : TxData.copy I h = some (I2, h1)) :
    tx.copy h = some
      ({ ExecutionNode := tx.ExecutionNode,
         ConfidentialComputeRequest := { inner := some I2 },
         ConfidentialComputeResult := (common.CopyBytes tx.ConfidentialComputeResult h1).1,
         ChainID := Ptr.addr h1.nextInt, V := Ptr.addr (h1.nextInt + 1),
         R := Ptr.addr (h1.nextInt + 2), S := Ptr.addr (h1.nextInt + 3) },
       (tx.copyAlloc h1).setFour h1.nextInt tx.ChainID tx.V tx.R tx.S) := by
  simp only [SuaveTransaction.copy, NewTx, hI, hcopy, Heap.newInt, setIfNotNil_addr,
    SuaveTransaction.copyAlloc, Heap.setFour, (CopyBytes_ints _ _).2]
  rfl

theorem SuaveTransaction.env_copyAlloc_extendedBy {α : Type} (tx : SuaveTransaction α)
    (h1 : Heap) :
    h1.extendedBy (tx.copyAlloc h1) ∧ (tx.copyAlloc h1).nextInt = h1.nextInt + 4 := by
  refine ⟨?_, ?_⟩
  · unfold SuaveTransaction.copyAlloc
    refine Heap.extendedBy_trans _ _ _ ?_ (Heap.newInt_extendedBy _)
    refine Heap.extendedBy_trans _ _ _ ?_ (Heap.newInt_extendedBy _)
    refine Heap.extendedBy_trans _ _ _ ?_ (Heap.newInt_extendedBy _)
    refine Heap.extendedBy_trans _ _ _ ?_ (Heap.newInt_extendedBy _)
    exact (CopyBytes_extendedBy _ _).1
  · simp only [SuaveTransaction.copyAlloc, Heap.newInt, (CopyBytes_ints _ _).2]

theorem SuaveTransaction.env_copyAlloc_ints {α : Type} (tx : SuaveTransaction α) (h1 : Heap)
    (k : Nat) :
    (tx.copyAlloc h1).ints k =
      if h1.nextInt ≤ k ∧ k < h1.nextInt + 4 then 0 else h1.ints k := by
  simp only [SuaveTransaction.copyAlloc, Heap.newInt, (CopyBytes_ints _ _).1,
    (CopyBytes_ints _ _).2]
  split_ifs <;> first | rfl | omega

/-- The steps of the envelope `copy` after the copy of the inner transaction
leave the memory handed out before as it was. -/
theorem SuaveTransaction.env_copy_extendedBy {α : Type} (tx : SuaveTransaction α) (h1 : Heap) :
    h1.extendedBy ((tx.copyAlloc h1).setFour h1.nextInt tx.ChainID tx.V tx.R tx.S) :=
  Heap.setFour_extendedBy h1 _ _ _ _ _ _ (tx.env_copyAlloc_extendedBy h1).1 (Nat.le_refl _)

/-- What the fresh cell `n + i` of the envelope copy holds after the four
statements, for a source pointer `x` into the memory handed out before: the
integer of `x`, or zero when `x` is nil. -/
theorem SuaveTransaction.env_copy_int_value {α : Type} (tx : SuaveTransaction α) (h h1 : Heap)
    (hframe : h.extendedBy h1) (x : Ptr) (hx : x.below h.nextInt) (i : Nat)
    (hnil : x = Ptr.nil →
      ((tx.copyAlloc h1).setFour h1.nextInt tx.ChainID tx.V tx.R tx.S).ints (h1.nextInt + i)
        = (tx.copyAlloc h1).ints (h1.nextInt + i))
    (haddr : ∀ b, b < h1.nextInt → x = Ptr.addr b →
      ((tx.copyAlloc h1).setFour h1.nextInt tx.ChainID tx.V tx.R tx.S).ints (h1.nextInt + i)
        = (tx.copyAlloc h1).ints b)
    (hi : i < 4) :
    (x ≠ Ptr.nil →
      ((tx.copyAlloc h1).setFour h1.nextInt tx.ChainID tx.V tx.R tx.S).intAt
        (Ptr.addr (h1.nextInt + i)) = h.intAt x) ∧
    (x = Ptr.nil →
      ((tx.copyAlloc h1).setFour h1.nextInt tx.ChainID tx.V tx.R tx.S).intAt
        (Ptr.addr (h1.nextInt + i)) = some 0) := by
  obtain ⟨a1, -, -, a4, -, -⟩ := hframe
  cases x with
  | nil =>
    refine ⟨fun hne => absurd rfl hne, fun _ => ?_⟩
    have hin : h1.nextInt ≤ h1.nextInt + i ∧ h1.nextInt + i < h1.nextInt + 4 := by omega
    simp only [Heap.intAt, hnil rfl, tx.env_copyAlloc_ints, hin, and_self, if_true]
  | addr b =>
    have hb : b < h.nextInt := hx
    have hb1 : b < h1.nextInt := by omega
    have hnot : ¬ (h1.nextInt ≤ b ∧ b < h1.nextInt + 4) := by omega
    refine ⟨fun _ => ?_, fun hc => by cases hc⟩
    simp only [Heap.intAt, haddr b hb1 rfl, tx.env_copyAlloc_ints, hnot, if_false, a4 b hb]

/-- The result bytes of the envelope copy are those of the envelope. -/
theorem SuaveTransaction.copy_result_bytes {α : Type} (tx : SuaveTransaction α) (h h1 : Heap)
    (hframe : h.extendedBy h1) (hres : tx.ConfidentialComputeResult.below h.nextBytes) :
    ((tx.copyAlloc h1).setFour h1.nextInt tx.ChainID tx.V tx.R tx.S).bytesAt
      (common.CopyBytes tx.ConfidentialComputeResult h1).1 =
      h.bytesAt tx.ConfidentialComputeResult := by
  have h1b := CopyBytes_bytesAt tx.ConfidentialComputeResult h1
  have h2b := ((Heap.extendedBy_at h h1 hframe tx.ConfidentialComputeResult).2.2 hres)
  rw [h2b] at h1b
  have hbytes : ((tx.copyAlloc h1).setFour h1.nextInt tx.ChainID tx.V tx.R tx.S).bytes =
      (common.CopyBytes tx.ConfidentialComputeResult h1).2.bytes := by
    rw [(Heap.setFour_others _ _ _ _ _ _).2]
    rfl
  cases hD : (common.CopyBytes tx.ConfidentialComputeResult h1).1 with
  | nil => rw [hD] at h1b; simpa [Heap.bytesAt] using h1b
  | addr q =>
    rw [hD] at h1b
    simpa [Heap.bytesAt, hbytes] using h1b

/-- The fields of a request copy whose source is nil point to zero. -/
theorem ConfidentialComputeRequest.copy_nil_zero (r : ConfidentialComputeRequest) (h : Heap) :
    (r.Value = Ptr.nil →
      ((r.copyAlloc h).setSix h.nextInt r.Value r.GasPrice r.ChainID r.V r.R r.S).ints
        h.nextInt = 0) ∧
    (r.GasPrice = Ptr.nil →
      ((r.copyAlloc h).setSix h.nextInt r.Value r.GasPrice r.ChainID r.V r.R r.S).ints
        (h.nextInt + 1) = 0) ∧
    (r.ChainID = Ptr.nil →
      ((r.copyAlloc h).setSix h.nextInt r.Value r.GasPrice r.ChainID r.V r.R r.S).ints
        (h.nextInt + 2) = 0) ∧
    (r.V = Ptr.nil →
      ((r.copyAlloc h).setSix h.nextInt r.Value r.GasPrice r.ChainID r.V r.R r.S).ints
        (h.nextInt + 3) = 0) ∧
    (r.R = Ptr.nil →
      ((r.copyAlloc h).setSix h.nextInt r.Value r.GasPrice r.ChainID r.V r.R r.S).ints
        (h.nextInt + 4) = 0) ∧
    (r.S = Ptr.nil →
      ((r.copyAlloc h).setSix h.nextInt r.Value r.GasPrice r.ChainID r.V r.R r.S).ints
        (h.nextInt + 5) = 0) := by
  obtain ⟨h0, h1, h2, h3, h4, h5⟩ :=
    Heap.setSix_ints_nil (r.copyAlloc h) h.nextInt r.Value r.GasPrice r.ChainID r.V r.R r.S
  refine ⟨?_, ?_, ?_, ?_, ?_, ?_⟩
  · intro hnil
    simp [h0 hnil, r.copyAlloc_ints]
  · intro hnil
    simp [h1 hnil, r.copyAlloc_ints]
  · intro hnil
    simp [h2 hnil, r.copyAlloc_ints]
  · intro hnil
    simp [h3 hnil, r.copyAlloc_ints]
  · intro hnil
    simp [h4 hnil, r.copyAlloc_ints]
  · intro hnil
    simp [h5 hnil, r.copyAlloc_ints]

/-! ## Lemmas on changes in place -/

theorem Heap.mutate_intAt (h : Heap) (m : Mutation) (p : Ptr)
    (hp : ∀ a v, m = Mutation.int a v → p ≠ Ptr.addr a) :
    (h.mutate m).intAt p = h.intAt p := by
  cases m with
  | int a v =>
    cases p with
    | nil => rfl
    | addr b =>
      have hne : b ≠ a := fun hc => hp a v rfl (by rw [hc])
      simp [Heap.mutate, Heap.writeInt, Heap.intAt, hne]
  | address a v => cases p <;> rfl
  | bytes a bs => cases p <;> rfl

theorem Heap.mutate_addrAt (h : Heap) (m : Mutation) (p : Ptr)
    (hp : ∀ a v, m = Mutation.address a v → p ≠ Ptr.addr a) :
    (h.mutate m).addrAt p = h.addrAt p := by
  cases m with
  | int a v => cases p <;> rfl
  | address a v =>
    cases p with
    | nil => rfl
    | addr b =>
      have hne : b ≠ a := fun hc => hp a v rfl (by rw [hc])
      simp [Heap.mutate, Heap.addrAt, hne]
  | bytes a bs => cases p <;> rfl

theorem Heap.mutate_bytesAt (h : Heap) (m : Mutation) (p : Ptr)
    (hp : ∀ a bs, m = Mutation.bytes a bs → p ≠ Ptr.addr a) :
    (h.mutate m).bytesAt p = h.bytesAt p := by
  cases m with
  | int a v => cases p <;> rfl
  | address a v => cases p <;> rfl
  | bytes a bs =>
    cases p with
    | nil => rfl
    | addr b =>
      have hne : b ≠ a := fun hc => hp a bs rfl (by rw [hc])
      simp [Heap.mutate, Heap.bytesAt, hne]

/-- A change in place that is not performed on the request leaves the request
as it was, by value. -/
theorem ConfidentialComputeRequest.valueIn_mutate (r : ConfidentialComputeRequest) (h : Heap)
    (m : Mutation) (hnot : ¬ r.reaches m) : r.valueIn (h.mutate m) = r.valueIn h := by
  have hint : ∀ p : Ptr, (∀ a v, m = Mutation.int a v → p ≠ Ptr.addr a) →
      (h.mutate m).intAt p = h.intAt p := h.mutate_intAt m
  have e1 : (h.mutate m).intAt r.Value = h.intAt r.Value := by
    apply hint
    intro a v hm hp
    subst hm
    exact hnot (Or.inl hp)
  have e2 : (h.mutate m).intAt r.GasPrice = h.intAt r.GasPrice := by
    apply hint
    intro a v hm hp
    subst hm
    exact hnot (Or.inr (Or.inl hp))
  have e3 : (h.mutate m).intAt r.ChainID = h.intAt r.ChainID := by
    apply hint
    intro a v hm hp
    subst hm
    exact hnot (Or.inr (Or.inr (Or.inl hp)))
  have e4 : (h.mutate m).intAt r.V = h.intAt r.V := by
    apply hint
    intro a v hm hp
    subst hm
    exact hnot (Or.inr (Or.inr (Or.inr (Or.inl hp))))
  have e5 : (h.mutate m).intAt r.R = h.intAt r.R := by
    apply hint
    intro a v hm hp
    subst hm
    exact hnot (Or.inr (Or.inr (Or.inr (Or.inr (Or.inl hp)))))
  have e6 : (h.mutate m).intAt r.S = h.intAt r.S := by
    apply hint
    intro a v hm hp
    subst hm
    exact hnot (Or.inr (Or.inr (Or.inr (Or.inr (Or.inr hp)))))
  have e7 : (h.mutate m).addrAt r.To = h.addrAt r.To := by
    apply h.mutate_addrAt
    intro a v hm hp
    subst hm
    exact hnot hp
  have e8 : (h.mutate m).bytesAt r.Data = h.bytesAt r.Data := by
    apply h.mutate_bytesAt
    intro a v hm hp
    subst hm
    exact hnot hp
  simp only [ConfidentialComputeRequest.valueIn, e1, e2, e3, e4, e5, e6, e7, e8]

/-- A change performed on a request living in `h` writes a cell that `h` has
handed out. -/
theorem ConfidentialComputeRequest.reaches_old (r : ConfidentialComputeRequest) (h : Heap)
    (hwf : r.allocatedIn h) (m : Mutation) (hm : r.reaches m) : m.old h := by
  obtain ⟨hG, hV, hC, hv, hr, hs, hT, hD⟩ := hwf
  cases m with
  | int a v =>
    rcases hm with hm | hm | hm | hm | hm | hm
    · rw [hm] at hV; exact hV
    · rw [hm] at hG; exact hG
    · rw [hm] at hC; exact hC
    · rw [hm] at hv; exact hv
    · rw [hm] at hr; exact hr
    · rw [hm] at hs; exact hs
  | address a v =>
    have hm2 : r.To = Ptr.addr a := hm
    rw [hm2] at hT; exact hT
  | bytes a bs =>
    have hm2 : r.Data = Ptr.addr a := hm
    rw [hm2] at hD; exact hD

/-- Every pointer of the request is nil or points to a cell that `h` had not
handed out. -/
theorem ConfidentialComputeRequest.reaches_fresh (c : ConfidentialComputeRequest) (h : Heap)
    (hV : c.Value.atLeast h.nextInt) (hG : c.GasPrice.atLeast h.nextInt)
    (hC : c.ChainID.atLeast h.nextInt) (hv : c.V.atLeast h.nextInt)
    (hr : c.R.atLeast h.nextInt) (hs : c.S.atLeast h.nextInt)
    (hT : c.To.atLeast h.nextAddr) (hD : c.Data.atLeast h.nextBytes)
    (m : Mutation) (hm : c.reaches m) : ¬ m.old h := by
  cases m with
  | int a v =>
    have key : h.nextInt ≤ a := by
      rcases hm with hm | hm | hm | hm | hm | hm
      · rw [hm] at hV; exact hV
      · rw [hm] at hG; exact hG
      · rw [hm] at hC; exact hC
      · rw [hm] at hv; exact hv
      · rw [hm] at hr; exact hr
      · rw [hm] at hs; exact hs
    exact Nat.not_lt.mpr key
  | address a v =>
    have hm2 : c.To = Ptr.addr a := hm
    rw [hm2] at hT
    exact Nat.not_lt.mpr hT
  | bytes a bs =>
    have hm2 : c.Data = Ptr.addr a := hm
    rw [hm2] at hD
    exact Nat.not_lt.mpr hD

/-! ## The copy of a request, by value -/

theorem ConfidentialComputeRequest.copy_eq_copied (tx : ConfidentialComputeRequest)
    (h : Heap) : tx.copy h = some (tx.copied h, tx.copiedHeap h) :=
  tx.copy_eq h

theorem ConfidentialComputeRequest.copiedHeap_extendedBy (tx : ConfidentialComputeRequest)
    (h : Heap) : h.extendedBy (tx.copiedHeap h) :=
  tx.copy_extendedBy h

theorem ConfidentialComputeRequest.copiedHeap_next (tx : ConfidentialComputeRequest)
    (h : Heap) :
    (tx.copiedHeap h).nextInt = h.nextInt + 6 ∧
    (tx.copiedHeap h).nextAddr = (copyAddressPtr tx.To h).2.nextAddr ∧
    (tx.copiedHeap h).nextBytes =
      (common.CopyBytes tx.Data (copyAddressPtr tx.To h).2).2.nextBytes := by
  refine ⟨?_, ?_, ?_⟩
  · simp only [ConfidentialComputeRequest.copiedHeap, (Heap.setSix_next _ _ _ _ _ _ _ _).1,
      (tx.copyAlloc_extendedBy h).2]
  · simp only [ConfidentialComputeRequest.copiedHeap, (Heap.setSix_next _ _ _ _ _ _ _ _).2.1,
      ConfidentialComputeRequest.copyAlloc, Heap.newInt]
    cases tx.Data <;> rfl
  · simp only [ConfidentialComputeRequest.copiedHeap, (Heap.setSix_next _ _ _ _ _ _ _ _).2.2,
      ConfidentialComputeRequest.copyAlloc, Heap.newInt]

/-- The copy lives in the memory that `copy` leaves. -/
theorem ConfidentialComputeRequest.copied_allocatedIn (tx : ConfidentialComputeRequest)
    (h : Heap) : (tx.copied h).allocatedIn (tx.copiedHeap h) := by
  obtain ⟨n1, n2, n3⟩ := tx.copiedHeap_next h
  refine ⟨?_, ?_, ?_, ?_, ?_, ?_, ?_, ?_⟩
  · show h.nextInt + 1 < _
    omega
  · show h.nextInt < _
    omega
  · show h.nextInt + 2 < _
    omega
  · show h.nextInt + 3 < _
    omega
  · show h.nextInt + 4 < _
    omega
  · show h.nextInt + 5 < _
    omega
  · rw [n2]
    exact (copyAddressPtr_extendedBy tx.To h).2.2
  · rw [n3]
    exact (CopyBytes_extendedBy tx.Data _).2.2

/-- A change performed on the copy writes a cell that the memory before the
copy had not handed out. -/
theorem ConfidentialComputeRequest.copied_reaches_fresh (tx : ConfidentialComputeRequest)
    (h : Heap) (m : Mutation) (hm : (tx.copied h).reaches m) : ¬ m.old h := by
  refine (tx.copied h).reaches_fresh h ?_ ?_ ?_ ?_ ?_ ?_ ?_ ?_ m hm
  · show h.nextInt ≤ h.nextInt
    omega
  · show h.nextInt ≤ h.nextInt + 1
    omega
  · show h.nextInt ≤ h.nextInt + 2
    omega
  · show h.nextInt ≤ h.nextInt + 3
    omega
  · show h.nextInt ≤ h.nextInt + 4
    omega
  · show h.nextInt ≤ h.nextInt + 5
    omega
  · exact (copyAddressPtr_extendedBy tx.To h).2.1
  · have key := (CopyBytes_extendedBy tx.Data (copyAddressPtr tx.To h).2).2.1
    have hsame : (copyAddressPtr tx.To h).2.nextBytes = h.nextBytes := by
      cases tx.To <;> rfl
    rw [hsame] at key
    exact key

/-- What the fresh cell `n + i` of the copy holds: the integer of the source
pointer, or zero when that is nil. -/
theorem ConfidentialComputeRequest.copied_int (tx : ConfidentialComputeRequest) (h : Heap)
    (x : Ptr) (hx : x.below h.nextInt) (i : Nat)
    (hnil : x = Ptr.nil → (tx.copiedHeap h).ints (h.nextInt + i) = 0)
    (haddr : ∀ b, b < h.nextInt → x = Ptr.addr b →
      (tx.copiedHeap h).ints (h.nextInt + i) = (tx.copyAlloc h).ints b) :
    (tx.copiedHeap h).intAt (Ptr.addr (h.nextInt + i)) = some ((h.intAt x).getD 0) := by
  cases x with
  | nil => simp only [Heap.intAt, hnil rfl, Option.getD]
  | addr b =>
    have hb : b < h.nextInt := hx
    have hnot : ¬ (h.nextInt ≤ b ∧ b < h.nextInt + 6) := by omega
    simp only [Heap.intAt, haddr b hb rfl, tx.copyAlloc_ints, hnot, if_false, Option.getD]

/-- The copy of a request living in the memory is, by value, the request with
its nil integers replaced by zero. -/
theorem ConfidentialComputeRequest.copied_valueIn (tx : ConfidentialComputeRequest) (h : Heap)
    (hwf : tx.allocatedIn h) :
    (tx.copied h).valueIn (tx.copiedHeap h) = (tx.valueIn h).withZeroDefaults := by
  obtain ⟨hG, hV, hC, hv, hr, hs, hT, hD⟩ := hwf
  obtain ⟨z0, z1, z2, z3, z4, z5⟩ := tx.copy_nil_zero h
  have i0 := tx.copied_int h tx.Value hV 0 z0
    (fun b hb hx => (Heap.setSix_ints_addr _ _ _ _ _ _ _ _ b hb).1 hx)
  have i1 := tx.copied_int h tx.GasPrice hG 1 z1
    (fun b hb hx => (Heap.setSix_ints_addr _ _ _ _ _ _ _ _ b hb).2.1 hx)
  have i2 := tx.copied_int h tx.ChainID hC 2 z2
    (fun b hb hx => (Heap.setSix_ints_addr _ _ _ _ _ _ _ _ b hb).2.2.1 hx)
  have i3 := tx.copied_int h tx.V hv 3 z3
    (fun b hb hx => (Heap.setSix_ints_addr _ _ _ _ _ _ _ _ b hb).2.2.2.1 hx)
  have i4 := tx.copied_int h tx.R hr 4 z4
    (fun b hb hx => (Heap.setSix_ints_addr _ _ _ _ _ _ _ _ b hb).2.2.2.2.1 hx)
  have i5 := tx.copied_int h tx.S hs 5 z5
    (fun b hb hx => (Heap.setSix_ints_addr _ _ _ _ _ _ _ _ b hb).2.2.2.2.2 hx)
  have hTo : (tx.copiedHeap h).addrAt (copyAddressPtr tx.To h).1 = h.addrAt tx.To := by
    have h1 := (copyAddressPtr_addrAt tx.To h).2
    cases hp : (copyAddressPtr tx.To h).1 with
    | nil => rw [hp] at h1; simpa [Heap.addrAt] using h1
    | addr q =>
      rw [hp] at h1
      simpa [Heap.addrAt, ConfidentialComputeRequest.copiedHeap,
        (Heap.setSix_others _ _ _ _ _ _ _ _).1, (tx.copyAlloc_others h).1] using h1
  have hData : (tx.copiedHeap h).bytesAt
      (common.CopyBytes tx.Data (copyAddressPtr tx.To h).2).1 = h.bytesAt tx.Data := by
    have h1 := CopyBytes_bytesAt tx.Data (copyAddressPtr tx.To h).2
    have h2 : (copyAddressPtr tx.To h).2.bytesAt tx.Data = h.bytesAt tx.Data := by
      cases tx.To <;> cases tx.Data <;> simp [copyAddressPtr, Heap.bytesAt]
    rw [h2] at h1
    cases hp : (common.CopyBytes tx.Data (copyAddressPtr tx.To h).2).1 with
    | nil => rw [hp] at h1; simpa [Heap.bytesAt] using h1
    | addr q =>
      rw [hp] at h1
      simpa [Heap.bytesAt, ConfidentialComputeRequest.copiedHeap,
        (Heap.setSix_others _ _ _ _ _ _ _ _).2, (tx.copyAlloc_others h).2] using h1
  simp only [Nat.add_zero] at i0
  simp only [ConfidentialComputeRequest.valueIn, ConfidentialComputeRequest.copied,
    RequestValue.withZeroDefaults, i0, i1, i2, i3, i4, i5, hTo, hData]

/-- The value of a request does not change when the memory grows. -/
theorem ConfidentialComputeRequest.valueIn_extendedBy (tx : ConfidentialComputeRequest)
    (h h2 : Heap) (hwf : tx.allocatedIn h) (hext : h.extendedBy h2) :
    tx.valueIn h2 = tx.valueIn h := by
  obtain ⟨hG, hV, hC, hv, hr, hs, hT, hD⟩ := hwf
  simp only [ConfidentialComputeRequest.valueIn,
    (Heap.extendedBy_at h h2 hext _).1 hG, (Heap.extendedBy_at h h2 hext _).1 hV,
    (Heap.extendedBy_at h h2 hext _).1 hC, (Heap.extendedBy_at h h2 hext _).1 hv,
    (Heap.extendedBy_at h h2 hext _).1 hr, (Heap.extendedBy_at h h2 hext _).1 hs,
    (Heap.extendedBy_at h h2 hext _).2.1 hT, (Heap.extendedBy_at h h2 hext _).2.2 hD]

theorem ConfidentialComputeRequest.allocatedIn_extendedBy (tx : ConfidentialComputeRequest)
    (h h2 : Heap) (hwf : tx.allocatedIn h) (hext : h.extendedBy h2) : tx.allocatedIn h2 := by
  obtain ⟨hG, hV, hC, hv, hr, hs, hT, hD⟩ := hwf
  obtain ⟨a1, a2, a3, -, -, -⟩ := hext
  exact ⟨Ptr.below_mono _ _ _ hG a1, Ptr.below_mono _ _ _ hV a1, Ptr.below_mono _ _ _ hC a1,
    Ptr.below_mono _ _ _ hv a1, Ptr.below_mono _ _ _ hr a1, Ptr.below_mono _ _ _ hs a1,
    Ptr.below_mono _ _ _ hT a2, Ptr.below_mono _ _ _ hD a3⟩

/-! ## The copy of an envelope around a request, by value -/

theorem SuaveTransaction.env_copy_eq_copied {α : Type} [TxData α] (tx : SuaveTransaction α)
    (h : Heap) (I I2 : α) (h1 : Heap) (hI : tx.ConfidentialComputeRequest.inner = some I)
    (hcopy : TxData.copy I h = some (I2, h1)) :
    tx.copy h = some (tx.copied I2 h1, tx.copiedHeap h1) :=
  tx.env_copy_eq h I I2 h1 hI hcopy

/-- The copy of an envelope around a request always returns. -/
theorem SuaveTransaction.copy_request
    (tx : SuaveTransaction Confidential.ConfidentialComputeRequest)
    (h : Heap) (q : Confidential.ConfidentialComputeRequest)
    (hq : tx.ConfidentialComputeRequest.inner = some q) :
    tx.copy h = some (tx.copied (q.copied h) (q.copiedHeap h), tx.copiedHeap (q.copiedHeap h)) :=
  tx.env_copy_eq h q _ _ hq (q.copy_eq h)

theorem SuaveTransaction.env_copiedHeap_extendedBy {α : Type} (tx : SuaveTransaction α)
    (h1 : Heap) : h1.extendedBy (tx.copiedHeap h1) :=
  tx.env_copy_extendedBy h1

/-- The envelope-level integer cell `n + i` of the copy holds the integer of
the source pointer, or zero when that is nil. -/
theorem SuaveTransaction.env_copied_int {α : Type} (tx : SuaveTransaction α) (h h1 : Heap)
    (hframe : h.extendedBy h1) (x : Ptr) (hx : x.below h.nextInt) (i : Nat)
    (hnil : x = Ptr.nil →
      ((tx.copyAlloc h1).setFour h1.nextInt tx.ChainID tx.V tx.R tx.S).ints (h1.nextInt + i)
        = (tx.copyAlloc h1).ints (h1.nextInt + i))
    (haddr : ∀ b, b < h1.nextInt → x = Ptr.addr b →
      ((tx.copyAlloc h1).setFour h1.nextInt tx.ChainID tx.V tx.R tx.S).ints (h1.nextInt + i)
        = (tx.copyAlloc h1).ints b)
    (hi : i < 4) :
    (tx.copiedHeap h1).intAt (Ptr.addr (h1.nextInt + i)) = some ((h.intAt x).getD 0) := by
  obtain ⟨f1, f2⟩ := tx.env_copy_int_value h h1 hframe x hx i hnil haddr hi
  cases x with
  | nil => exact f2 rfl
  | addr b =>
    have hne : Ptr.addr b ≠ Ptr.nil := by
      intro hc
      cases hc
    exact f1 hne

/-- The copy of an envelope around a request, both living in the memory, is by
value the envelope with the nil integers replaced by zero. -/
theorem SuaveTransaction.env_copied_valueIn
    (tx : SuaveTransaction Confidential.ConfidentialComputeRequest)
    (h : Heap) (q : Confidential.ConfidentialComputeRequest)
    (hq : tx.ConfidentialComputeRequest.inner = some q) (hwf : tx.allocatedIn h)
    (hqwf : q.allocatedIn h) :
    (tx.copied (q.copied h) (q.copiedHeap h)).valueIn (tx.copiedHeap (q.copiedHeap h)) =
      (tx.valueIn h).withZeroDefaults := by
  obtain ⟨wC, wV, wR, wS, wRes⟩ := hwf
  have hframe := q.copiedHeap_extendedBy h
  have i0 := tx.env_copied_int h (q.copiedHeap h) hframe tx.ChainID wC 0
    (Heap.setFour_ints_nil _ _ _ _ _ _).1
    (fun b hb hx => (Heap.setFour_ints_addr _ _ _ _ _ _ b hb).1 hx) (by omega)
  have i1 := tx.env_copied_int h (q.copiedHeap h) hframe tx.V wV 1
    (Heap.setFour_ints_nil _ _ _ _ _ _).2.1
    (fun b hb hx => (Heap.setFour_ints_addr _ _ _ _ _ _ b hb).2.1 hx) (by omega)
  have i2 := tx.env_copied_int h (q.copiedHeap h) hframe tx.R wR 2
    (Heap.setFour_ints_nil _ _ _ _ _ _).2.2.1
    (fun b hb hx => (Heap.setFour_ints_addr _ _ _ _ _ _ b hb).2.2.1 hx) (by omega)
  have i3 := tx.env_copied_int h (q.copiedHeap h) hframe tx.S wS 3
    (Heap.setFour_ints_nil _ _ _ _ _ _).2.2.2
    (fun b hb hx => (Heap.setFour_ints_addr _ _ _ _ _ _ b hb).2.2.2 hx) (by omega)
  have hres := tx.copy_result_bytes h (q.copiedHeap h) hframe wRes
  have hinner : (q.copied h).valueIn (tx.copiedHeap (q.copiedHeap h)) =
      (q.valueIn h).withZeroDefaults := by
    rw [(q.copied h).valueIn_extendedBy (q.copiedHeap h) _ (q.copied_allocatedIn h)
      (tx.env_copiedHeap_extendedBy _)]
    exact q.copied_valueIn h hqwf
  simp only [Nat.add_zero] at i0
  simp only [SuaveTransaction.valueIn, SuaveTransaction.copied, EnvelopeValue.withZeroDefaults,
    i0, i1, i2, i3, hq, Option.map, hinner]
  rw [show (tx.copiedHeap (q.copiedHeap h)).bytesAt
      (common.CopyBytes tx.ConfidentialComputeResult (q.copiedHeap h)).1 =
      h.bytesAt tx.ConfidentialComputeResult from hres]

/-- A change in place that is not performed on the envelope leaves the
envelope as it was, by value. -/
theorem SuaveTransaction.env_valueIn_mutate
    (tx : SuaveTransaction Confidential.ConfidentialComputeRequest)
    (h : Heap) (m : Mutation) (hnot : ¬ tx.reaches m) :
    tx.valueIn (h.mutate m) = tx.valueIn h := by
  have hinner : tx.ConfidentialComputeRequest.inner.map (fun q => q.valueIn (h.mutate m)) =
      tx.ConfidentialComputeRequest.inner.map (fun q => q.valueIn h) := by
    cases hq : tx.ConfidentialComputeRequest.inner with
    | none => rfl
    | some q =>
      have hnq : ¬ q.reaches m := fun hc => hnot (Or.inr ⟨q, hq, hc⟩)
      simp only [Option.map, q.valueIn_mutate h m hnq]
  have e1 : (h.mutate m).intAt tx.ChainID = h.intAt tx.ChainID := by
    apply h.mutate_intAt
    intro a v hm hp
    subst hm
    exact hnot (Or.inl (Or.inl hp))
  have e2 : (h.mutate m).intAt tx.V = h.intAt tx.V := by
    apply h.mutate_intAt
    intro a v hm hp
    subst hm
    exact hnot (Or.inl (Or.inr (Or.inl hp)))
  have e3 : (h.mutate m).intAt tx.R = h.intAt tx.R := by
    apply h.mutate_intAt
    intro a v hm hp
    subst hm
    exact hnot (Or.inl (Or.inr (Or.inr (Or.inl hp))))
  have e4 : (h.mutate m).intAt tx.S = h.intAt tx.S := by
    apply h.mutate_intAt
    intro a v hm hp
    subst hm
    exact hnot (Or.inl (Or.inr (Or.inr (Or.inr hp))))
  have e5 : (h.mutate m).bytesAt tx.ConfidentialComputeResult =
      h.bytesAt tx.ConfidentialComputeResult := by
    apply h.mutate_bytesAt
    intro a v hm hp
    subst hm
    exact hnot (Or.inl hp)
  simp only [SuaveTransaction.valueIn, e1, e2, e3, e4, e5, hinner]

/-- A change performed on an envelope living in `h`, around a request living
in `h`, writes a cell that `h` has handed out. -/
theorem SuaveTransaction.env_reaches_old
    (tx : SuaveTransaction Confidential.ConfidentialComputeRequest)
    (h : Heap) (q : Confidential.ConfidentialComputeRequest)
    (hq : tx.ConfidentialComputeRequest.inner = some q) (hwf : tx.allocatedIn h)
    (hqwf : q.allocatedIn h) (m : Mutation) (hm : tx.reaches m) : m.old h := by
  obtain ⟨wC, wV, wR, wS, wRes⟩ := hwf
  rcases hm with hm | ⟨q2, hq2, hm⟩
  · cases m with
    | int a v =>
      rcases hm with hm | hm | hm | hm
      · rw [hm] at wC; exact wC
      · rw [hm] at wV; exact wV
      · rw [hm] at wR; exact wR
      · rw [hm] at wS; exact wS
    | address a v => exact absurd hm (fun hc => hc)
    | bytes a bs =>
      have hm2 : tx.ConfidentialComputeResult = Ptr.addr a := hm
      rw [hm2] at wRes; exact wRes
  · rw [hq] at hq2
    cases hq2
    exact q.reaches_old h hqwf m hm

/-- A change performed on the copy of an envelope around a request writes a
cell that the memory before the copy had not handed out. -/
theorem SuaveTransaction.env_copied_reaches_fresh
    (tx : SuaveTransaction Confidential.ConfidentialComputeRequest) (h : Heap)
    (q : Confidential.ConfidentialComputeRequest) (m : Mutation)
    (hm : (tx.copied (q.copied h) (q.copiedHeap h)).reaches m) : ¬ m.old h := by
  obtain ⟨a1, a2, a3, -, -, -⟩ := q.copiedHeap_extendedBy h
  rcases hm with hm | ⟨q2, hq2, hm⟩
  · cases m with
    | int a v =>
      have key : (q.copiedHeap h).nextInt ≤ a := by
        rcases hm with hm | hm | hm | hm
        · cases hm; omega
        · cases hm; omega
        · cases hm; omega
        · cases hm; omega
      exact Nat.not_lt.mpr (Nat.le_trans a1 key)
    | address a v => exact absurd hm (fun hc => hc)
    | bytes a bs =>
      have hm2 : (common.CopyBytes tx.ConfidentialComputeResult (q.copiedHeap h)).1 =
          Ptr.addr a := hm
      have key := (CopyBytes_extendedBy tx.ConfidentialComputeResult (q.copiedHeap h)).2.1
      rw [hm2] at key
      exact Nat.not_lt.mpr (Nat.le_trans a3 key)
  · have hq3 : q2 = q.copied h := by
      have : some (q.copied h) = some q2 := hq2
      cases this
      rfl
    subst hq3
    exact q.copied_reaches_fresh h m hm

/-! ## The scenario -/

theorem exampleRequest_copy :
    TxData.copy exampleRequest exampleHeap = some (exampleRequestCopy, exampleHeapAfterCopy) := by
  show exampleRequest.copy exampleHeap = _
  simp only [exampleRequestCopy, exampleHeapAfterCopy, exampleRequest.copy_eq exampleHeap]

theorem exampleHeap_extendedBy : exampleHeap.extendedBy exampleHeapAfterCopy := by
  simp only [exampleHeapAfterCopy, exampleRequest.copy_eq exampleHeap]
  exact exampleRequest.copy_extendedBy exampleHeap

/-- The call `z.Set(x)` on two non-nil pointers returns `z`. -/
theorem big.Set_returns (a : Nat) (x : Ptr) (h : Heap) (hx : x ≠ Ptr.nil) :
    ∃ h2, big.Set (Ptr.addr a) x h = some (Ptr.addr a, h2) := by
  cases x with
  | nil => exact absurd rfl hx
  | addr b =>
    obtain ⟨h2, hset, -⟩ := big.Set_value a (Ptr.addr b) h (h.ints b) rfl
    exact ⟨h2, hset⟩

theorem RequestValue.withZeroDefaults_idem (v : RequestValue) :
    v.withZeroDefaults.withZeroDefaults = v.withZeroDefaults := by
  simp [RequestValue.withZeroDefaults]

/-- A request without nil integers is, by value, its own zero-defaulted
value. -/
theorem ConfidentialComputeRequest.withZeroDefaults_of_non_nil (r : ConfidentialComputeRequest)
    (h : Heap) (hV : r.Value ≠ Ptr.nil) (hG : r.GasPrice ≠ Ptr.nil)
    (hC : r.ChainID ≠ Ptr.nil) (hv : r.V ≠ Ptr.nil) (hr : r.R ≠ Ptr.nil)
    (hs : r.S ≠ Ptr.nil) : (r.valueIn h).withZeroDefaults = r.valueIn h := by
  obtain ⟨n, g, gas, t, val, d, x, c, v, r0, s⟩ := r
  cases g with
  | nil => exact absurd rfl hG
  | addr g =>
  cases val with
  | nil => exact absurd rfl hV
  | addr val =>
  cases c with
  | nil => exact absurd rfl hC
  | addr c =>
  cases v with
  | nil => exact absurd rfl hv
  | addr v =>
  cases r0 with
  | nil => exact absurd rfl hr
  | addr r0 =>
  cases s with
  | nil => exact absurd rfl hs
  | addr s => rfl

/-- An envelope around a request, neither with a nil integer, is by value its
own zero-defaulted value. -/
theorem SuaveTransaction.env_withZeroDefaults_of_non_nil
    (e : SuaveTransaction Confidential.ConfidentialComputeRequest) (h : Heap)
    (q : Confidential.ConfidentialComputeRequest)
    (hq : e.ConfidentialComputeRequest.inner = some q)
    (hV : q.Value ≠ Ptr.nil) (hG : q.GasPrice ≠ Ptr.nil) (hC : q.ChainID ≠ Ptr.nil)
    (hv : q.V ≠ Ptr.nil) (hr : q.R ≠ Ptr.nil) (hs : q.S ≠ Ptr.nil)
    (eC : e.ChainID ≠ Ptr.nil) (eV : e.V ≠ Ptr.nil) (eR : e.R ≠ Ptr.nil)
    (eS : e.S ≠ Ptr.nil) : (e.valueIn h).withZeroDefaults = e.valueIn h := by
  have hinner := q.withZeroDefaults_of_non_nil h hV hG hC hv hr hs
  obtain ⟨node, ⟨inner⟩, res, c, v, r0, s⟩ := e
  simp only at hq eC eV eR eS
  subst hq
  cases c with
  | nil => exact absurd rfl eC
  | addr c =>
  cases v with
  | nil => exact absurd rfl eV
  | addr v =>
  cases r0 with
  | nil => exact absurd rfl eR
  | addr r0 =>
  cases s with
  | nil => exact absurd rfl eS
  | addr s =>
    simp only [SuaveTransaction.valueIn, EnvelopeValue.withZeroDefaults, Option.map, hinner,
      Heap.intAt, Option.getD]

/-! ## The claims -/

/-- C1. For every request `r` and every memory, `r.copy()` returns a request
whose `Value`, `GasPrice`, `ChainID`, `V`, `R`, `S` are all non-nil, and each
of them that is nil in `r` points to the integer zero. -/
theorem copy_fields_non_nil_zero (r : ConfidentialComputeRequest) (h : Heap) :
    ∃ c h', r.copy h = some (c, h') ∧
      c.Value ≠ Ptr.nil ∧ c.GasPrice ≠ Ptr.nil ∧ c.ChainID ≠ Ptr.nil ∧
      c.V ≠ Ptr.nil ∧ c.R ≠ Ptr.nil ∧ c.S ≠ Ptr.nil ∧
      (r.Value = Ptr.nil → h'.intAt c.Value = some 0) ∧
      (r.GasPrice = Ptr.nil → h'.intAt c.GasPrice = some 0) ∧
      (r.ChainID = Ptr.nil → h'.intAt c.ChainID = some 0) ∧
      (r.V = Ptr.nil → h'.intAt c.V = some 0) ∧
      (r.R = Ptr.nil → h'.intAt c.R = some 0) ∧
      (r.S = Ptr.nil → h'.intAt c.S = some 0) := by
  obtain ⟨h0, h1, h2, h3, h4, h5⟩ :=
    Heap.setSix_ints_nil (r.copyAlloc h) h.nextInt r.Value r.GasPrice r.ChainID r.V r.R r.S
  refine ⟨_, _, r.copy_eq h, by simp, by simp, by simp, by simp, by simp, by simp,
    ?_, ?_, ?_, ?_, ?_, ?_⟩
  · intro hnil
    simp [Heap.intAt, h0 hnil, r.copyAlloc_ints]
  · intro hnil
    simp [Heap.intAt, h1 hnil, r.copyAlloc_ints]
  · intro hnil
    simp [Heap.intAt, h2 hnil, r.copyAlloc_ints]
  · intro hnil
    simp [Heap.intAt, h3 hnil, r.copyAlloc_ints]
  · intro hnil
    simp [Heap.intAt, h4 hnil, r.copyAlloc_ints]
  · intro hnil
    simp [Heap.intAt, h5 hnil, r.copyAlloc_ints]


/-- C2. For every request `r` living in the memory, `r.copy()` returns a
request with the same `Nonce`, `Gas` and `ExecutionNode`, a `To` that is absent
exactly when that of `r` is and otherwise holds the same address, a `Data` with
the same bytes, and, for each of `Value`, `GasPrice`, `ChainID`, `V`, `R`, `S`
that is non-nil in `r`, the same integer value. -/
theorem copy_carries_same_data (r : ConfidentialComputeRequest) (h : Heap)
    (hwf : r.allocatedIn h) :
    ∃ c h', r.copy h = some (c, h') ∧
      c.Nonce = r.Nonce ∧ c.Gas = r.Gas ∧ c.ExecutionNode = r.ExecutionNode ∧
      (c.To = Ptr.nil ↔ r.To = Ptr.nil) ∧ h'.addrAt c.To = h.addrAt r.To ∧
      h'.bytesAt c.Data = h.bytesAt r.Data ∧
      (r.Value ≠ Ptr.nil → h'.intAt c.Value = h.intAt r.Value) ∧
      (r.GasPrice ≠ Ptr.nil → h'.intAt c.GasPrice = h.intAt r.GasPrice) ∧
      (r.ChainID ≠ Ptr.nil → h'.intAt c.ChainID = h.intAt r.ChainID) ∧
      (r.V ≠ Ptr.nil → h'.intAt c.V = h.intAt r.V) ∧
      (r.R ≠ Ptr.nil → h'.intAt c.R = h.intAt r.R) ∧
      (r.S ≠ Ptr.nil → h'.intAt c.S = h.intAt r.S) := by
  obtain ⟨hG, hV, hC, hv, hr, hs, -, -⟩ := hwf
  refine ⟨_, _, r.copy_eq h, rfl, rfl, rfl, (copyAddressPtr_addrAt r.To h).1, ?_, ?_,
    ?_, ?_, ?_, ?_, ?_, ?_⟩
  · have h1 := (copyAddressPtr_addrAt r.To h).2
    cases hTo : (copyAddressPtr r.To h).1 with
    | nil => rw [hTo] at h1; simpa [Heap.addrAt] using h1
    | addr q =>
      rw [hTo] at h1
      simpa [Heap.addrAt, (Heap.setSix_others _ _ _ _ _ _ _ _).1,
        (r.copyAlloc_others h).1] using h1
  · have h1 := CopyBytes_bytesAt r.Data (copyAddressPtr r.To h).2
    have h2 : (copyAddressPtr r.To h).2.bytesAt r.Data = h.bytesAt r.Data := by
      cases r.To <;> cases r.Data <;> simp [copyAddressPtr, Heap.bytesAt]
    rw [h2] at h1
    cases hD : (common.CopyBytes r.Data (copyAddressPtr r.To h).2).1 with
    | nil => rw [hD] at h1; simpa [Heap.bytesAt] using h1
    | addr q =>
      rw [hD] at h1
      simpa [Heap.bytesAt, (Heap.setSix_others _ _ _ _ _ _ _ _).2,
        (r.copyAlloc_others h).2] using h1
  · intro hne
    exact r.copy_int_value h r.Value hV hne 0 (fun b hb hx =>
      (Heap.setSix_ints_addr _ _ _ _ _ _ _ _ b hb).1 hx)
  · intro hne
    exact r.copy_int_value h r.GasPrice hG hne 1 (fun b hb hx =>
      (Heap.setSix_ints_addr _ _ _ _ _ _ _ _ b hb).2.1 hx)
  · intro hne
    exact r.copy_int_value h r.ChainID hC hne 2 (fun b hb hx =>
      (Heap.setSix_ints_addr _ _ _ _ _ _ _ _ b hb).2.2.1 hx)
  · intro hne
    exact r.copy_int_value h r.V hv hne 3 (fun b hb hx =>
      (Heap.setSix_ints_addr _ _ _ _ _ _ _ _ b hb).2.2.2.1 hx)
  · intro hne
    exact r.copy_int_value h r.R hr hne 4 (fun b hb hx =>
      (Heap.setSix_ints_addr _ _ _ _ _ _ _ _ b hb).2.2.2.2.1 hx)
  · intro hne
    exact r.copy_int_value h r.S hs hne 5 (fun b hb hx =>
      (Heap.setSix_ints_addr _ _ _ _ _ _ _ _ b hb).2.2.2.2.2 hx)


/-- Witness of C2: the request of the scenario lives in the memory of the
scenario, and its copy carries the same data. -/
theorem copy_carries_same_data_witness :
    exampleRequest.allocatedIn exampleHeap ∧
    ∃ c h', exampleRequest.copy exampleHeap = some (c, h') ∧
      c.Nonce = exampleRequest.Nonce ∧ c.Gas = exampleRequest.Gas ∧
      c.ExecutionNode = exampleRequest.ExecutionNode ∧
      (c.To = Ptr.nil ↔ exampleRequest.To = Ptr.nil) ∧
      h'.addrAt c.To = exampleHeap.addrAt exampleRequest.To ∧
      h'.bytesAt c.Data = exampleHeap.bytesAt exampleRequest.Data ∧
      (exampleRequest.Value ≠ Ptr.nil →
        h'.intAt c.Value = exampleHeap.intAt exampleRequest.Value) ∧
      (exampleRequest.GasPrice ≠ Ptr.nil →
        h'.intAt c.GasPrice = exampleHeap.intAt exampleRequest.GasPrice) ∧
      (exampleRequest.ChainID ≠ Ptr.nil →
        h'.intAt c.ChainID = exampleHeap.intAt exampleRequest.ChainID) ∧
      (exampleRequest.V ≠ Ptr.nil → h'.intAt c.V = exampleHeap.intAt exampleRequest.V) ∧
      (exampleRequest.R ≠ Ptr.nil → h'.intAt c.R = exampleHeap.intAt exampleRequest.R) ∧
      (exampleRequest.S ≠ Ptr.nil → h'.intAt c.S = exampleHeap.intAt exampleRequest.S) :=
  ⟨by decide, copy_carries_same_data exampleRequest exampleHeap (by decide)⟩

/-- C3. For every envelope `e` wrapping an inner transaction `I` of any
variant, each of `gas`, `value`, `nonce`, `to`, `accessList`, `blobGas`,
`blobGasFeeCap` and `blobHashes` returns on `e` exactly what the same accessor
returns on `I`. -/
theorem envelope_delegation {α : Type} [TxData α] (e : SuaveTransaction α) (I : α)
    (hI : e.ConfidentialComputeRequest.inner = some I) :
    e.gas = TxData.gas I ∧ e.value = TxData.value I ∧ e.nonce = TxData.nonce I ∧
    e.to_ = TxData.to_ I ∧ e.accessList = TxData.accessList I ∧
    e.blobGas = TxData.blobGas I ∧ e.blobGasFeeCap = TxData.blobGasFeeCap I ∧
    e.blobHashes = TxData.blobHashes I := by
  simp [SuaveTransaction.gas, SuaveTransaction.value, SuaveTransaction.nonce,
    SuaveTransaction.to_, SuaveTransaction.accessList, SuaveTransaction.blobGas,
    SuaveTransaction.blobGasFeeCap, SuaveTransaction.blobHashes, hI]

/-- Witness of C3: the envelope of the scenario answers what its request
answers. -/
theorem envelope_delegation_witness :
    exampleEnvelope.ConfidentialComputeRequest.inner = some exampleRequest ∧
    (exampleEnvelope.gas = TxData.gas exampleRequest ∧
     exampleEnvelope.value = TxData.value exampleRequest ∧
     exampleEnvelope.nonce = TxData.nonce exampleRequest ∧
     exampleEnvelope.to_ = TxData.to_ exampleRequest ∧
     exampleEnvelope.accessList = TxData.accessList exampleRequest ∧
     exampleEnvelope.blobGas = TxData.blobGas exampleRequest ∧
     exampleEnvelope.blobGasFeeCap = TxData.blobGasFeeCap exampleRequest ∧
     exampleEnvelope.blobHashes = TxData.blobHashes exampleRequest) :=
  ⟨rfl, envelope_delegation exampleEnvelope exampleRequest rfl⟩

/-- C4. For every envelope `e` whose result slice holds the bytes `res` and
which wraps a request `q` whose `Data` holds the bytes `d`: `e.data()` is the
result slice and holds `res`, whatever `d` is; `q.data()` is `q.Data` and
still holds `d`; and `e.gas()` is the `Gas` of `q`. -/
theorem envelope_data_is_result (e : SuaveTransaction ConfidentialComputeRequest)
    (q : ConfidentialComputeRequest) (h : Heap) (res d : List Nat)
    (hq : e.ConfidentialComputeRequest.inner = some q)
    (hres : h.bytesAt e.ConfidentialComputeResult = res)
    (hd : h.bytesAt q.Data = d) :
    e.data = e.ConfidentialComputeResult ∧ h.bytesAt e.data = res ∧
    q.data = q.Data ∧ h.bytesAt q.data = d ∧ e.gas = some q.Gas := by
  refine ⟨rfl, hres, rfl, hd, ?_⟩
  simp only [SuaveTransaction.gas, hq, Option.bind]
  rfl

/-- Witness of C4: the scenario with `Gas=21000`, `d=[0x01,0x02]` and
`res=[0xFF]`. -/
theorem envelope_data_is_result_witness :
    (exampleEnvelope.ConfidentialComputeRequest.inner = some exampleRequest ∧
     exampleHeap.bytesAt exampleEnvelope.ConfidentialComputeResult = [0xFF] ∧
     exampleHeap.bytesAt exampleRequest.Data = [0x01, 0x02]) ∧
    (exampleEnvelope.data = exampleEnvelope.ConfidentialComputeResult ∧
     exampleHeap.bytesAt exampleEnvelope.data = [0xFF] ∧
     exampleRequest.data = exampleRequest.Data ∧
     exampleHeap.bytesAt exampleRequest.data = [0x01, 0x02] ∧
     exampleEnvelope.gas = some 21000) :=
  ⟨⟨rfl, by decide, by decide⟩,
   envelope_data_is_result exampleEnvelope exampleRequest exampleHeap [0xFF] [0x01, 0x02]
     rfl (by decide) (by decide)⟩


/-- C5. For every request signed with `setSignatureValues(c1, v1, r1, s1)` and
every envelope `e` wrapping it, after `e.setSignatureValues(c2, v2, r2, s2)`
the envelope returns `(v2, r2, s2)` from `rawSignatureValues()` and `c2` from
`chainID()`, while the wrapped request still returns `(v1, r1, s1)` and
`c1`. -/
theorem signature_layering (q0 : ConfidentialComputeRequest)
    (e : SuaveTransaction ConfidentialComputeRequest) (c1 v1 r1 s1 c2 v2 r2 s2 : Ptr)
    (hq : e.ConfidentialComputeRequest.inner = some (q0.setSignatureValues c1 v1 r1 s1)) :
    (e.setSignatureValues c2 v2 r2 s2).rawSignatureValues = (v2, r2, s2) ∧
    (e.setSignatureValues c2 v2 r2 s2).chainID = c2 ∧
    ∃ q, (e.setSignatureValues c2 v2 r2 s2).ConfidentialComputeRequest.inner = some q ∧
      q.rawSignatureValues = (v1, r1, s1) ∧ q.chainID = c1 :=
  ⟨rfl, rfl, q0.setSignatureValues c1 v1 r1 s1, hq, rfl, rfl⟩

/-- Witness of C5: the request of the scenario signed with the cells
`(1, 0, 2)` for the chain of cell 3, wrapped, and the envelope then signed with
the cells `(3, 2, 1)` for the chain of cell 0. -/
theorem signature_layering_witness :
    exampleSignedEnvelope.ConfidentialComputeRequest.inner =
      some (exampleRequest.setSignatureValues
        (Ptr.addr 3) (Ptr.addr 1) (Ptr.addr 0) (Ptr.addr 2)) ∧
    ((exampleSignedEnvelope.setSignatureValues
        (Ptr.addr 0) (Ptr.addr 3) (Ptr.addr 2) (Ptr.addr 1)).rawSignatureValues =
      (Ptr.addr 3, Ptr.addr 2, Ptr.addr 1) ∧
     (exampleSignedEnvelope.setSignatureValues
        (Ptr.addr 0) (Ptr.addr 3) (Ptr.addr 2) (Ptr.addr 1)).chainID = Ptr.addr 0 ∧
     ∃ q, (exampleSignedEnvelope.setSignatureValues
        (Ptr.addr 0) (Ptr.addr 3) (Ptr.addr 2) (Ptr.addr 1)).ConfidentialComputeRequest.inner =
          some q ∧
       q.rawSignatureValues = (Ptr.addr 1, Ptr.addr 0, Ptr.addr 2) ∧
       q.chainID = Ptr.addr 3) :=
  ⟨rfl,
   signature_layering exampleRequest exampleSignedEnvelope
     (Ptr.addr 3) (Ptr.addr 1) (Ptr.addr 0) (Ptr.addr 2)
     (Ptr.addr 0) (Ptr.addr 3) (Ptr.addr 2) (Ptr.addr 1) rfl⟩

/-- C6. `chainID()` and `rawSignatureValues()` of an envelope do not depend on
the wrapped transaction: two envelopes with the same envelope-level `ChainID`,
`V`, `R`, `S`, whatever their inner transactions and the variants of these,
return the same values, which are the envelope's own `ChainID` and
`(V, R, S)`. -/
theorem envelope_signature_independent_of_inner {α β : Type} (e1 : SuaveTransaction α)
    (e2 : SuaveTransaction β) (hc : e1.ChainID = e2.ChainID) (hv : e1.V = e2.V)
    (hr : e1.R = e2.R) (hs : e1.S = e2.S) :
    e1.chainID = e2.chainID ∧ e1.rawSignatureValues = e2.rawSignatureValues ∧
    e1.chainID = e1.ChainID ∧ e1.rawSignatureValues = (e1.V, e1.R, e1.S) := by
  simp [SuaveTransaction.chainID, SuaveTransaction.rawSignatureValues, hc, hv, hr, hs]

/-- Witness of C6: an envelope around the signed request of the scenario and
an envelope around an envelope, an inner transaction of another variant without
chain ID or signature, both signed alike at the envelope level. -/
theorem envelope_signature_independent_of_inner_witness :
    ((exampleSignedEnvelope.setSignatureValues (Ptr.addr 0) (Ptr.addr 3) (Ptr.addr 2)
        (Ptr.addr 1)).ChainID =
      (exampleNested.setSignatureValues (Ptr.addr 0) (Ptr.addr 3) (Ptr.addr 2)
        (Ptr.addr 1)).ChainID) ∧
    ((exampleSignedEnvelope.setSignatureValues (Ptr.addr 0) (Ptr.addr 3) (Ptr.addr 2)
        (Ptr.addr 1)).chainID =
      (exampleNested.setSignatureValues (Ptr.addr 0) (Ptr.addr 3) (Ptr.addr 2)
        (Ptr.addr 1)).chainID ∧
     (exampleSignedEnvelope.setSignatureValues (Ptr.addr 0) (Ptr.addr 3) (Ptr.addr 2)
        (Ptr.addr 1)).rawSignatureValues =
      (exampleNested.setSignatureValues (Ptr.addr 0) (Ptr.addr 3) (Ptr.addr 2)
        (Ptr.addr 1)).rawSignatureValues ∧
     (exampleSignedEnvelope.setSignatureValues (Ptr.addr 0) (Ptr.addr 3) (Ptr.addr 2)
        (Ptr.addr 1)).chainID = Ptr.addr 0 ∧
     (exampleSignedEnvelope.setSignatureValues (Ptr.addr 0) (Ptr.addr 3) (Ptr.addr 2)
        (Ptr.addr 1)).rawSignatureValues = (Ptr.addr 3, Ptr.addr 2, Ptr.addr 1)) :=
  ⟨rfl,
   envelope_signature_independent_of_inner
     (exampleSignedEnvelope.setSignatureValues (Ptr.addr 0) (Ptr.addr 3) (Ptr.addr 2)
       (Ptr.addr 1))
     (exampleNested.setSignatureValues (Ptr.addr 0) (Ptr.addr 3) (Ptr.addr 2)
       (Ptr.addr 1)) rfl rfl rfl rfl⟩

/-- C7. `setSignatureValues(chainID, v, r, s)` overwrites exactly the chain ID
and the signature triple.  On a request it sets `ChainID`, `V`, `R`, `S` to
the arguments as given and leaves `Nonce`, `GasPrice`, `Gas`, `To`, `Value`,
`Data` and `ExecutionNode` unchanged; on an envelope it sets the envelope's
`ChainID`, `V`, `R`, `S` and leaves `ExecutionNode`, the whole inner
transaction and `ConfidentialComputeResult` unchanged. -/
theorem setSignatureValues_frame {α : Type} (q : ConfidentialComputeRequest)
    (e : SuaveTransaction α) (chainID v r s : Ptr) :
    ((q.setSignatureValues chainID v r s).ChainID = chainID ∧
     (q.setSignatureValues chainID v r s).V = v ∧
     (q.setSignatureValues chainID v r s).R = r ∧
     (q.setSignatureValues chainID v r s).S = s ∧
     (q.setSignatureValues chainID v r s).Nonce = q.Nonce ∧
     (q.setSignatureValues chainID v r s).GasPrice = q.GasPrice ∧
     (q.setSignatureValues chainID v r s).Gas = q.Gas ∧
     (q.setSignatureValues chainID v r s).To = q.To ∧
     (q.setSignatureValues chainID v r s).Value = q.Value ∧
     (q.setSignatureValues chainID v r s).Data = q.Data ∧
     (q.setSignatureValues chainID v r s).ExecutionNode = q.ExecutionNode) ∧
    ((e.setSignatureValues chainID v r s).ChainID = chainID ∧
     (e.setSignatureValues chainID v r s).V = v ∧
     (e.setSignatureValues chainID v r s).R = r ∧
     (e.setSignatureValues chainID v r s).S = s ∧
     (e.setSignatureValues chainID v r s).ExecutionNode = e.ExecutionNode ∧
     (e.setSignatureValues chainID v r s).ConfidentialComputeRequest =
       e.ConfidentialComputeRequest ∧
     (e.setSignatureValues chainID v r s).ConfidentialComputeResult =
       e.ConfidentialComputeResult) :=
  ⟨⟨rfl, rfl, rfl, rfl, rfl, rfl, rfl, rfl, rfl, rfl, rfl⟩,
   ⟨rfl, rfl, rfl, rfl, rfl, rfl, rfl⟩⟩

/-- C8. For every request with a stored `GasPrice` of value `g`, every
destination `dst` (the `big.Int` cell that receives the price), whatever it
held before, and every `baseFee`, absent or not,
`effectiveGasPrice(dst, baseFee)` returns `dst` and leaves the value `g` in
it; the outcome is the same for every other `baseFee`. -/
theorem effectiveGasPrice_is_gasPrice (r : ConfidentialComputeRequest) (h : Heap) (g : Int)
    (dst : Nat) (baseFee : Ptr) (hg : h.intAt r.GasPrice = some g) :
    (∃ h', r.effectiveGasPrice (Ptr.addr dst) baseFee h = some (Ptr.addr dst, h') ∧
      h'.intAt (Ptr.addr dst) = some g) ∧
    ∀ baseFee2 : Ptr,
      r.effectiveGasPrice (Ptr.addr dst) baseFee2 h =
        r.effectiveGasPrice (Ptr.addr dst) baseFee h :=
  ⟨big.Set_value dst r.GasPrice h g hg, fun _ => rfl⟩

/-- Witness of C8: `GasPrice=100`, once with a `baseFee` of 9999 and once with
an absent one, into a destination that held 0. -/
theorem effectiveGasPrice_is_gasPrice_witness :
    (exampleHeap.intAt exampleRequest.GasPrice = some 100 ∧
     exampleHeap.intAt (Ptr.addr 2) = some 9999 ∧
     exampleHeap.intAt (Ptr.addr 3) = some 0) ∧
    ((∃ h', exampleRequest.effectiveGasPrice (Ptr.addr 3) (Ptr.addr 2) exampleHeap =
        some (Ptr.addr 3, h') ∧ h'.intAt (Ptr.addr 3) = some 100) ∧
     ∀ baseFee2 : Ptr,
      exampleRequest.effectiveGasPrice (Ptr.addr 3) baseFee2 exampleHeap =
        exampleRequest.effectiveGasPrice (Ptr.addr 3) (Ptr.addr 2) exampleHeap) ∧
    ((∃ h', exampleRequest.effectiveGasPrice (Ptr.addr 3) Ptr.nil exampleHeap =
        some (Ptr.addr 3, h') ∧ h'.intAt (Ptr.addr 3) = some 100) ∧
     ∀ baseFee2 : Ptr,
      exampleRequest.effectiveGasPrice (Ptr.addr 3) baseFee2 exampleHeap =
        exampleRequest.effectiveGasPrice (Ptr.addr 3) Ptr.nil exampleHeap) :=
  ⟨⟨by decide, by decide, by decide⟩,
   effectiveGasPrice_is_gasPrice exampleRequest exampleHeap 100 3 (Ptr.addr 2) (by decide),
   effectiveGasPrice_is_gasPrice exampleRequest exampleHeap 100 3 Ptr.nil (by decide)⟩

/-- C10. For every envelope `e` wrapping an inner transaction `I`,
`gasFeeCap()` and `gasTipCap()` of `e` return what those of `I` return, and
`effectiveGasPrice(dst, baseFee)` of `e` has the outcome of that of `I` for
every `dst` (nil included), every `baseFee` and every memory; in particular,
around a request `q` with a `GasPrice` of value `g`, `effectiveGasPrice` of
the envelope returns the destination cell holding `g`, for every `baseFee`. -/
theorem envelope_fee_delegation {α : Type} [TxData α] (e : SuaveTransaction α) (I : α)
    (hI : e.ConfidentialComputeRequest.inner = some I)
    (e2 : SuaveTransaction ConfidentialComputeRequest) (q : ConfidentialComputeRequest)
    (hq : e2.ConfidentialComputeRequest.inner = some q)
    (h : Heap) (g : Int) (hg : h.intAt q.GasPrice = some g) (dst : Nat) :
    e.gasFeeCap = TxData.gasFeeCap I ∧ e.gasTipCap = TxData.gasTipCap I ∧
    (∀ (d baseFee : Ptr) (m : Heap),
      e.effectiveGasPrice d baseFee m = TxData.effectiveGasPrice I d baseFee m) ∧
    (∀ baseFee : Ptr,
      ∃ h', e2.effectiveGasPrice (Ptr.addr dst) baseFee h = some (Ptr.addr dst, h') ∧
        h'.intAt (Ptr.addr dst) = some g) := by
  refine ⟨?_, ?_, ?_, ?_⟩
  · simp [SuaveTransaction.gasFeeCap, hI]
  · simp [SuaveTransaction.gasTipCap, hI]
  · intro d baseFee m
    simp [SuaveTransaction.effectiveGasPrice, hI]
  · intro baseFee
    have hstep : e2.effectiveGasPrice (Ptr.addr dst) baseFee h =
        q.effectiveGasPrice (Ptr.addr dst) baseFee h := by
      simp only [SuaveTransaction.effectiveGasPrice, hq, Option.bind]
      rfl
    rw [hstep]
    exact big.Set_value dst q.GasPrice h g hg

/-- Witness of C10: the envelope of the scenario, whose request has
`GasPrice=100`, and the destination cell 3. -/
theorem envelope_fee_delegation_witness :
    (exampleEnvelope.ConfidentialComputeRequest.inner = some exampleRequest ∧
     exampleHeap.intAt exampleRequest.GasPrice = some 100) ∧
    (exampleEnvelope.gasFeeCap = TxData.gasFeeCap exampleRequest ∧
     exampleEnvelope.gasTipCap = TxData.gasTipCap exampleRequest ∧
     (∀ (d baseFee : Ptr) (m : Heap),
       exampleEnvelope.effectiveGasPrice d baseFee m =
         TxData.effectiveGasPrice exampleRequest d baseFee m) ∧
     (∀ baseFee : Ptr,
       ∃ h', exampleEnvelope.effectiveGasPrice (Ptr.addr 3) baseFee exampleHeap =
           some (Ptr.addr 3, h') ∧ h'.intAt (Ptr.addr 3) = some 100)) :=
  ⟨⟨rfl, by decide⟩,
   envelope_fee_delegation exampleEnvelope exampleRequest rfl exampleEnvelope exampleRequest
     rfl exampleHeap 100 (by decide) 3⟩

/-- C11, the claim fails at an envelope whose inner transaction is present
but is itself an envelope with an absent inner transaction: the copy of the
inner envelope panics, and so does the copy of the outer one. -/
theorem envelope_copy_nested_absent_panics :
    exampleNestedAbsent.ConfidentialComputeRequest.inner ≠ none ∧
    exampleNestedAbsent.copy exampleHeap = none := by
  refine ⟨by decide, rfl⟩

/-- C11, amended. For every envelope `e` living in the memory whose inner
transaction `I` is present and whose own `copy()` returns `I2` leaving the
memory handed out before as it was, `e.copy()` returns an envelope with the
`ExecutionNode` of `e`, a result slice with the same bytes, the inner
transaction `I2`, and a `ChainID`, `V`, `R`, `S` that are all non-nil: equal
in value to those of `e` where non-nil and zero where nil.  Around a request
`q` the copy always returns, its inner transaction is the result of
`q.copy()`, and each integer field of it whose source is nil in `q` points to
zero. -/
theorem envelope_copy {α : Type} [TxData α] (e : SuaveTransaction α) (I I2 : α)
    (h h1 : Heap) (hI : e.ConfidentialComputeRequest.inner = some I)
    (hcopy : TxData.copy I h = some (I2, h1)) (hframe : h.extendedBy h1)
    (hwf : e.allocatedIn h)
    (e2 : SuaveTransaction ConfidentialComputeRequest) (q : ConfidentialComputeRequest)
    (m : Heap) (hq : e2.ConfidentialComputeRequest.inner = some q) :
    (∃ c h2, e.copy h = some (c, h2) ∧
      c.ExecutionNode = e.ExecutionNode ∧
      h2.bytesAt c.ConfidentialComputeResult = h.bytesAt e.ConfidentialComputeResult ∧
      c.ConfidentialComputeRequest.inner = some I2 ∧
      c.ChainID ≠ Ptr.nil ∧ c.V ≠ Ptr.nil ∧ c.R ≠ Ptr.nil ∧ c.S ≠ Ptr.nil ∧
      (e.ChainID ≠ Ptr.nil → h2.intAt c.ChainID = h.intAt e.ChainID) ∧
      (e.ChainID = Ptr.nil → h2.intAt c.ChainID = some 0) ∧
      (e.V ≠ Ptr.nil → h2.intAt c.V = h.intAt e.V) ∧
      (e.V = Ptr.nil → h2.intAt c.V = some 0) ∧
      (e.R ≠ Ptr.nil → h2.intAt c.R = h.intAt e.R) ∧
      (e.R = Ptr.nil → h2.intAt c.R = some 0) ∧
      (e.S ≠ Ptr.nil → h2.intAt c.S = h.intAt e.S) ∧
      (e.S = Ptr.nil → h2.intAt c.S = some 0)) ∧
    (∃ c m2 q2 m1, e2.copy m = some (c, m2) ∧ q.copy m = some (q2, m1) ∧
      c.ConfidentialComputeRequest.inner = some q2 ∧
      q2.Value ≠ Ptr.nil ∧ q2.GasPrice ≠ Ptr.nil ∧ q2.ChainID ≠ Ptr.nil ∧
      q2.V ≠ Ptr.nil ∧ q2.R ≠ Ptr.nil ∧ q2.S ≠ Ptr.nil ∧
      (q.Value = Ptr.nil → m2.intAt q2.Value = some 0) ∧
      (q.GasPrice = Ptr.nil → m2.intAt q2.GasPrice = some 0) ∧
      (q.ChainID = Ptr.nil → m2.intAt q2.ChainID = some 0) ∧
      (q.V = Ptr.nil → m2.intAt q2.V = some 0) ∧
      (q.R = Ptr.nil → m2.intAt q2.R = some 0) ∧
      (q.S = Ptr.nil → m2.intAt q2.S = some 0)) := by
  obtain ⟨wC, wV, wR, wS, wRes⟩ := hwf
  constructor
  · have f0 := e.env_copy_int_value h h1 hframe e.ChainID wC 0
      (Heap.setFour_ints_nil _ _ _ _ _ _).1
      (fun b hb hx => (Heap.setFour_ints_addr _ _ _ _ _ _ b hb).1 hx) (by omega)
    have f1 := e.env_copy_int_value h h1 hframe e.V wV 1
      (Heap.setFour_ints_nil _ _ _ _ _ _).2.1
      (fun b hb hx => (Heap.setFour_ints_addr _ _ _ _ _ _ b hb).2.1 hx) (by omega)
    have f2 := e.env_copy_int_value h h1 hframe e.R wR 2
      (Heap.setFour_ints_nil _ _ _ _ _ _).2.2.1
      (fun b hb hx => (Heap.setFour_ints_addr _ _ _ _ _ _ b hb).2.2.1 hx) (by omega)
    have f3 := e.env_copy_int_value h h1 hframe e.S wS 3
      (Heap.setFour_ints_nil _ _ _ _ _ _).2.2.2
      (fun b hb hx => (Heap.setFour_ints_addr _ _ _ _ _ _ b hb).2.2.2 hx) (by omega)
    exact ⟨_, _, e.env_copy_eq h I I2 h1 hI hcopy, rfl, e.copy_result_bytes h h1 hframe wRes, rfl,
      by simp, by simp, by simp, by simp, f0.1, f0.2, f1.1, f1.2, f2.1, f2.2, f3.1, f3.2⟩
  · have hext := e2.env_copy_extendedBy
      ((q.copyAlloc m).setSix m.nextInt q.Value q.GasPrice q.ChainID q.V q.R q.S)
    have hnext : ((q.copyAlloc m).setSix m.nextInt q.Value q.GasPrice q.ChainID q.V q.R
        q.S).nextInt = m.nextInt + 6 := by
      rw [(Heap.setSix_next _ _ _ _ _ _ _ _).1, (q.copyAlloc_extendedBy m).2]
    obtain ⟨z0, z1, z2, z3, z4, z5⟩ := q.copy_nil_zero m
    have keep : ∀ k, k < m.nextInt + 6 →
        ((e2.copyAlloc ((q.copyAlloc m).setSix m.nextInt q.Value q.GasPrice q.ChainID q.V q.R
          q.S)).setFour ((q.copyAlloc m).setSix m.nextInt q.Value q.GasPrice q.ChainID q.V q.R
          q.S).nextInt e2.ChainID e2.V e2.R e2.S).ints k =
        ((q.copyAlloc m).setSix m.nextInt q.Value q.GasPrice q.ChainID q.V q.R q.S).ints k := by
      intro k hk
      exact hext.2.2.2.1 k (by omega)
    refine ⟨_, _, _, _, e2.env_copy_eq m q _ _ hq (q.copy_eq m), q.copy_eq m, rfl,
      by simp, by simp, by simp, by simp, by simp, by simp, ?_, ?_, ?_, ?_, ?_, ?_⟩
    · intro hn
      simp only [Heap.intAt, keep m.nextInt (by omega), z0 hn]
    · intro hn
      simp only [Heap.intAt, keep (m.nextInt + 1) (by omega), z1 hn]
    · intro hn
      simp only [Heap.intAt, keep (m.nextInt + 2) (by omega), z2 hn]
    · intro hn
      simp only [Heap.intAt, keep (m.nextInt + 3) (by omega), z3 hn]
    · intro hn
      simp only [Heap.intAt, keep (m.nextInt + 4) (by omega), z4 hn]
    · intro hn
      simp only [Heap.intAt, keep (m.nextInt + 5) (by omega), z5 hn]

/-- Witness of C11: the envelope of the scenario, whose request copies into
`exampleRequestCopy`. -/
theorem envelope_copy_witness :
    (exampleEnvelope.ConfidentialComputeRequest.inner = some exampleRequest ∧
     TxData.copy exampleRequest exampleHeap = some (exampleRequestCopy, exampleHeapAfterCopy) ∧
     exampleHeap.extendedBy exampleHeapAfterCopy ∧
     exampleEnvelope.allocatedIn exampleHeap) ∧
    ∃ c h2, exampleEnvelope.copy exampleHeap = some (c, h2) ∧
      c.ExecutionNode = exampleEnvelope.ExecutionNode ∧
      h2.bytesAt c.ConfidentialComputeResult =
        exampleHeap.bytesAt exampleEnvelope.ConfidentialComputeResult ∧
      c.ConfidentialComputeRequest.inner = some exampleRequestCopy ∧
      c.ChainID ≠ Ptr.nil ∧ c.V ≠ Ptr.nil ∧ c.R ≠ Ptr.nil ∧ c.S ≠ Ptr.nil ∧
      (exampleEnvelope.ChainID ≠ Ptr.nil →
        h2.intAt c.ChainID = exampleHeap.intAt exampleEnvelope.ChainID) ∧
      (exampleEnvelope.ChainID = Ptr.nil → h2.intAt c.ChainID = some 0) ∧
      (exampleEnvelope.V ≠ Ptr.nil → h2.intAt c.V = exampleHeap.intAt exampleEnvelope.V) ∧
      (exampleEnvelope.V = Ptr.nil → h2.intAt c.V = some 0) ∧
      (exampleEnvelope.R ≠ Ptr.nil → h2.intAt c.R = exampleHeap.intAt exampleEnvelope.R) ∧
      (exampleEnvelope.R = Ptr.nil → h2.intAt c.R = some 0) ∧
      (exampleEnvelope.S ≠ Ptr.nil → h2.intAt c.S = exampleHeap.intAt exampleEnvelope.S) ∧
      (exampleEnvelope.S = Ptr.nil → h2.intAt c.S = some 0) :=
  ⟨⟨rfl, exampleRequest_copy, exampleHeap_extendedBy, by decide⟩,
   (envelope_copy exampleEnvelope exampleRequest exampleRequestCopy exampleHeap
      exampleHeapAfterCopy rfl exampleRequest_copy exampleHeap_extendedBy (by decide)
      exampleEnvelope exampleRequest exampleHeap rfl).1⟩

/-- C12. Deep-copy independence, for a request `r` and for an envelope `e`
around a request, all living in the memory.  `copy()` returns a copy such
that, in whatever state the memory is afterwards, a change in place of a cell
that a reference field of the copy points to (an integer, the `To` address,
the bytes of `Data` or of the result, the cells of the inner request) leaves
every field of the original as it was, by value, and a change in place of a
cell of the original leaves every field of the copy as it was.
`setSignatureValues` assigns fields of its own receiver only and writes no
cell, so on either record it is no change to the other. -/
theorem deep_copy_independence (r : ConfidentialComputeRequest)
    (e : SuaveTransaction ConfidentialComputeRequest) (q : ConfidentialComputeRequest)
    (h : Heap) (hr : r.allocatedIn h) (hq : e.ConfidentialComputeRequest.inner = some q)
    (he : e.allocatedIn h) (hqa : q.allocatedIn h) :
    (∃ c h2, r.copy h = some (c, h2) ∧
      (∀ (g : Heap) (m : Mutation), c.reaches m → r.valueIn (g.mutate m) = r.valueIn g) ∧
      (∀ (g : Heap) (m : Mutation), r.reaches m → c.valueIn (g.mutate m) = c.valueIn g)) ∧
    (∃ c h2, e.copy h = some (c, h2) ∧
      (∀ (g : Heap) (m : Mutation), c.reaches m → e.valueIn (g.mutate m) = e.valueIn g) ∧
      (∀ (g : Heap) (m : Mutation), e.reaches m → c.valueIn (g.mutate m) = c.valueIn g)) := by
  constructor
  · refine ⟨_, _, r.copy_eq_copied h, ?_, ?_⟩
    · intro g m hm
      exact r.valueIn_mutate g m
        (fun hc => r.copied_reaches_fresh h m hm (r.reaches_old h hr m hc))
    · intro g m hm
      exact (r.copied h).valueIn_mutate g m
        (fun hc => r.copied_reaches_fresh h m hc (r.reaches_old h hr m hm))
  · refine ⟨_, _, e.copy_request h q hq, ?_, ?_⟩
    · intro g m hm
      exact e.env_valueIn_mutate g m
        (fun hc => e.env_copied_reaches_fresh h q m hm (e.env_reaches_old h q hq he hqa m hc))
    · intro g m hm
      exact (e.copied (q.copied h) (q.copiedHeap h)).env_valueIn_mutate g m
        (fun hc => e.env_copied_reaches_fresh h q m hc (e.env_reaches_old h q hq he hqa m hm))

/-- Witness of C12: the request and the envelope of the scenario. -/
theorem deep_copy_independence_witness :
    (exampleRequest.allocatedIn exampleHeap ∧
     exampleEnvelope.ConfidentialComputeRequest.inner = some exampleRequest ∧
     exampleEnvelope.allocatedIn exampleHeap) ∧
    ((∃ c h2, exampleRequest.copy exampleHeap = some (c, h2) ∧
      (∀ (g : Heap) (m : Mutation), c.reaches m →
        exampleRequest.valueIn (g.mutate m) = exampleRequest.valueIn g) ∧
      (∀ (g : Heap) (m : Mutation), exampleRequest.reaches m →
        c.valueIn (g.mutate m) = c.valueIn g)) ∧
     (∃ c h2, exampleEnvelope.copy exampleHeap = some (c, h2) ∧
      (∀ (g : Heap) (m : Mutation), c.reaches m →
        exampleEnvelope.valueIn (g.mutate m) = exampleEnvelope.valueIn g) ∧
      (∀ (g : Heap) (m : Mutation), exampleEnvelope.reaches m →
        c.valueIn (g.mutate m) = c.valueIn g))) :=
  ⟨⟨by decide, rfl, by decide⟩,
   deep_copy_independence exampleRequest exampleEnvelope exampleRequest exampleHeap
     (by decide) rfl (by decide) (by decide)⟩

/-- C13. `txType()` of a request is the constant
`ConfidentialComputeRequestTxType` whatever its fields hold, `txType()` of an
envelope is the constant `SuaveTxType` whatever its fields and its inner
transaction are, `copy()` and `setSignatureValues` do not change either, and
the two constants are distinct. -/
theorem txType_stable {α : Type} [TxData α] (r : ConfidentialComputeRequest)
    (e : SuaveTransaction α) (e2 : SuaveTransaction ConfidentialComputeRequest)
    (q : ConfidentialComputeRequest) (h : Heap) (chainID v r0 s : Ptr)
    (hq : e2.ConfidentialComputeRequest.inner = some q) :
    r.txType = ConfidentialComputeRequestTxType ∧ e.txType = SuaveTxType ∧
    (∃ c h2, r.copy h = some (c, h2) ∧ c.txType = r.txType) ∧
    (∀ c h2, e.copy h = some (c, h2) → c.txType = e.txType) ∧
    (∃ c h2, e2.copy h = some (c, h2) ∧ c.txType = e2.txType) ∧
    (r.setSignatureValues chainID v r0 s).txType = r.txType ∧
    (e.setSignatureValues chainID v r0 s).txType = e.txType ∧
    ConfidentialComputeRequestTxType ≠ SuaveTxType :=
  ⟨rfl, rfl, ⟨_, _, r.copy_eq_copied h, rfl⟩, fun _ _ _ => rfl,
   ⟨_, _, e2.copy_request h q hq, rfl⟩, rfl, rfl, by decide⟩

/-- Witness of C13: the request and the envelope of the scenario. -/
theorem txType_stable_witness :
    exampleEnvelope.ConfidentialComputeRequest.inner = some exampleRequest ∧
    (exampleRequest.txType = ConfidentialComputeRequestTxType ∧
     exampleEnvelope.txType = SuaveTxType ∧
     (∃ c h2, exampleRequest.copy exampleHeap = some (c, h2) ∧
       c.txType = exampleRequest.txType) ∧
     (∀ c h2, exampleEnvelope.copy exampleHeap = some (c, h2) →
       c.txType = exampleEnvelope.txType) ∧
     (∃ c h2, exampleEnvelope.copy exampleHeap = some (c, h2) ∧
       c.txType = exampleEnvelope.txType) ∧
     (exampleRequest.setSignatureValues (Ptr.addr 3) (Ptr.addr 1) (Ptr.addr 0)
       (Ptr.addr 2)).txType = exampleRequest.txType ∧
     (exampleEnvelope.setSignatureValues (Ptr.addr 3) (Ptr.addr 1) (Ptr.addr 0)
       (Ptr.addr 2)).txType = exampleEnvelope.txType ∧
     ConfidentialComputeRequestTxType ≠ SuaveTxType) :=
  ⟨rfl,
   txType_stable exampleRequest exampleEnvelope exampleEnvelope exampleRequest exampleHeap
     (Ptr.addr 3) (Ptr.addr 1) (Ptr.addr 0) (Ptr.addr 2) rfl⟩

/-- C14, the claim fails at an envelope whose inner transaction is itself an
envelope: both answer `SuaveTxType`. -/
theorem nested_envelope_same_txType :
    exampleNested.ConfidentialComputeRequest.inner = some exampleEnvelope ∧
    exampleNested.txType = TxData.txType exampleEnvelope :=
  ⟨rfl, rfl⟩

/-- C14, amended. For every envelope `e`, `e.txType()` is the envelope's own
constant `SuaveTxType`; it is different from `I.txType()` when the inner
transaction `I` is not itself a `SuaveTransaction`: when `I` is a request, and
when `I` is of any other variant, whose discriminant is not `SuaveTxType`.
When `I` is itself a `SuaveTransaction` the two are equal. -/
theorem envelope_txType {α β : Type} [TxData α] [TxData β]
    (e1 : SuaveTransaction ConfidentialComputeRequest)
    (e2 : SuaveTransaction (SuaveTransaction β)) (e : SuaveTransaction α) :
    (e1.txType = SuaveTxType ∧ e2.txType = SuaveTxType ∧ e.txType = SuaveTxType) ∧
    (∀ q : ConfidentialComputeRequest, e1.ConfidentialComputeRequest.inner = some q →
      e1.txType ≠ TxData.txType q ∧ e1.txType ≠ q.txType) ∧
    (∀ I : α, e.ConfidentialComputeRequest.inner = some I →
      TxData.txType I ≠ SuaveTxType → e.txType ≠ TxData.txType I) ∧
    (∀ I2 : SuaveTransaction β, e2.ConfidentialComputeRequest.inner = some I2 →
      e2.txType = TxData.txType I2) := by
  have hne : SuaveTxType ≠ ConfidentialComputeRequestTxType := by decide
  refine ⟨⟨rfl, rfl, rfl⟩, fun _ _ => ⟨hne, hne⟩, ?_, fun _ _ => rfl⟩
  intro I _ hI hc
  exact hI hc.symm

/-- Witness of C14: around the request of the scenario the discriminants
differ, and around the envelope of the scenario they are equal. -/
theorem envelope_txType_witness :
    (exampleEnvelope.ConfidentialComputeRequest.inner = some exampleRequest ∧
     exampleNested.ConfidentialComputeRequest.inner = some exampleEnvelope) ∧
    exampleEnvelope.txType = SuaveTxType ∧
    exampleEnvelope.txType ≠ TxData.txType exampleRequest ∧
    exampleEnvelope.txType ≠ exampleRequest.txType ∧
    exampleNested.txType = TxData.txType exampleEnvelope :=
  ⟨⟨rfl, rfl⟩,
   (envelope_txType exampleEnvelope exampleNested exampleEnvelope).1.1,
   ((envelope_txType exampleEnvelope exampleNested exampleEnvelope).2.1
      exampleRequest rfl).1,
   ((envelope_txType exampleEnvelope exampleNested exampleEnvelope).2.1
      exampleRequest rfl).2,
   (envelope_txType exampleEnvelope exampleNested exampleEnvelope).2.2.2
      exampleEnvelope rfl⟩

/-- C15. For every request, whatever its fields hold, `blobGas()` returns 0,
`blobGasFeeCap()` and `blobHashes()` return nil and `accessList()` returns the
nil access list; an envelope wrapping a request returns the same four. -/
theorem request_has_no_blobs (r : ConfidentialComputeRequest)
    (e : SuaveTransaction ConfidentialComputeRequest) (q : ConfidentialComputeRequest)
    (hq : e.ConfidentialComputeRequest.inner = some q) :
    (r.blobGas = 0 ∧ r.blobGasFeeCap = Ptr.nil ∧ r.blobHashes = none ∧
     r.accessList = none) ∧
    (e.blobGas = some 0 ∧ e.blobGasFeeCap = some Ptr.nil ∧ e.blobHashes = some none ∧
     e.accessList = some none) ∧
    (e.blobGas = some q.blobGas ∧ e.blobGasFeeCap = some q.blobGasFeeCap ∧
     e.blobHashes = some q.blobHashes ∧ e.accessList = some q.accessList) := by
  refine ⟨⟨rfl, rfl, rfl, rfl⟩, ?_, ?_⟩ <;>
    simp only [SuaveTransaction.blobGas, SuaveTransaction.blobGasFeeCap,
      SuaveTransaction.blobHashes, SuaveTransaction.accessList, hq, Option.bind] <;>
    exact ⟨rfl, rfl, rfl, rfl⟩

/-- Witness of C15: the request and the envelope of the scenario. -/
theorem request_has_no_blobs_witness :
    exampleEnvelope.ConfidentialComputeRequest.inner = some exampleRequest ∧
    ((exampleRequest.blobGas = 0 ∧ exampleRequest.blobGasFeeCap = Ptr.nil ∧
      exampleRequest.blobHashes = none ∧ exampleRequest.accessList = none) ∧
     (exampleEnvelope.blobGas = some 0 ∧ exampleEnvelope.blobGasFeeCap = some Ptr.nil ∧
      exampleEnvelope.blobHashes = some none ∧ exampleEnvelope.accessList = some none) ∧
     (exampleEnvelope.blobGas = some exampleRequest.blobGas ∧
      exampleEnvelope.blobGasFeeCap = some exampleRequest.blobGasFeeCap ∧
      exampleEnvelope.blobHashes = some exampleRequest.blobHashes ∧
      exampleEnvelope.accessList = some exampleRequest.accessList)) :=
  ⟨rfl, request_has_no_blobs exampleRequest exampleEnvelope exampleRequest rfl⟩

/-- C16, the claim fails at three inputs: `effectiveGasPrice` into a
destination cell panics on a request whose `GasPrice` is nil, and `gas()` and
`copy()` panic on an envelope whose inner transaction is absent. -/
theorem operations_panic_on_absent_parts :
    exampleUnpriced.GasPrice = Ptr.nil ∧
    exampleUnpriced.effectiveGasPrice (Ptr.addr 3) (Ptr.addr 2) exampleHeap = none ∧
    exampleAbsent.ConfidentialComputeRequest.inner = none ∧
    exampleAbsent.gas = none ∧
    exampleAbsent.copy exampleHeap = none :=
  ⟨rfl, rfl, rfl, rfl, rfl⟩

/-- C16, amended. For every request `r`, whatever its fields hold (a nil
`GasPrice` included), each read accessor returns, `copy` returns, and
`effectiveGasPrice` into a destination cell returns when `GasPrice` is
non-nil.  For every envelope `e2` around a request `q`, whatever the fields of
`q` hold, each forwarded accessor returns and `copy` returns, and
`effectiveGasPrice` into a destination cell returns when the `GasPrice` of `q`
is non-nil.  For every envelope `e` around an inner transaction `I` of any
variant, each forwarded accessor and `effectiveGasPrice` have the outcome of
the operation of `I` that they call, and `copy` returns exactly when
`I.copy()` returns.  (`txType`, `chainID`, `data`, `rawSignatureValues` and
`setSignatureValues` read or assign fields of the receiver only and are total
functions here.) -/
theorem operations_return {α : Type} [TxData α] (r : ConfidentialComputeRequest)
    (e2 : SuaveTransaction ConfidentialComputeRequest) (q : ConfidentialComputeRequest)
    (e : SuaveTransaction α) (I : α) (h : Heap) (dst : Nat) (baseFee : Ptr)
    (hq : e2.ConfidentialComputeRequest.inner = some q)
    (hI : e.ConfidentialComputeRequest.inner = some I) :
    ((TxData.accessList r = some none ∧ TxData.gas r = some r.Gas ∧
      TxData.gasPrice r = some r.GasPrice ∧ TxData.gasTipCap r = some r.GasPrice ∧
      TxData.gasFeeCap r = some r.GasPrice ∧ TxData.value r = some r.Value ∧
      TxData.nonce r = some r.Nonce ∧ TxData.to_ r = some r.To ∧
      TxData.blobGas r = some 0 ∧ TxData.blobGasFeeCap r = some Ptr.nil ∧
      TxData.blobHashes r = some none) ∧
     (∃ c h2, r.copy h = some (c, h2)) ∧
     (r.GasPrice ≠ Ptr.nil →
       ∃ h2, r.effectiveGasPrice (Ptr.addr dst) baseFee h = some (Ptr.addr dst, h2))) ∧
    ((e2.accessList = some none ∧ e2.gas = some q.Gas ∧ e2.gasPrice = some q.GasPrice ∧
      e2.gasTipCap = some q.GasPrice ∧ e2.gasFeeCap = some q.GasPrice ∧
      e2.value = some q.Value ∧ e2.nonce = some q.Nonce ∧ e2.to_ = some q.To ∧
      e2.blobGas = some 0 ∧ e2.blobGasFeeCap = some Ptr.nil ∧ e2.blobHashes = some none) ∧
     (∃ c h2, e2.copy h = some (c, h2)) ∧
     (q.GasPrice ≠ Ptr.nil →
       ∃ h2, e2.effectiveGasPrice (Ptr.addr dst) baseFee h = some (Ptr.addr dst, h2))) ∧
    ((e.accessList = TxData.accessList I ∧ e.gas = TxData.gas I ∧
      e.gasPrice = TxData.gasFeeCap I ∧ e.gasTipCap = TxData.gasTipCap I ∧
      e.gasFeeCap = TxData.gasFeeCap I ∧ e.value = TxData.value I ∧
      e.nonce = TxData.nonce I ∧ e.to_ = TxData.to_ I ∧ e.blobGas = TxData.blobGas I ∧
      e.blobGasFeeCap = TxData.blobGasFeeCap I ∧ e.blobHashes = TxData.blobHashes I) ∧
     (∀ (d b : Ptr) (m : Heap),
       e.effectiveGasPrice d b m = TxData.effectiveGasPrice I d b m) ∧
     (e.copy h).isSome = (TxData.copy I h).isSome) := by
  refine ⟨⟨⟨rfl, rfl, rfl, rfl, rfl, rfl, rfl, rfl, rfl, rfl, rfl⟩,
    ⟨_, _, r.copy_eq_copied h⟩, fun hr => big.Set_returns dst r.GasPrice h hr⟩,
    ⟨?_, ⟨_, _, e2.copy_request h q hq⟩, ?_⟩, ⟨?_, ?_, ?_⟩⟩
  · simp only [SuaveTransaction.accessList, SuaveTransaction.gas, SuaveTransaction.gasPrice,
      SuaveTransaction.gasTipCap, SuaveTransaction.gasFeeCap, SuaveTransaction.value,
      SuaveTransaction.nonce, SuaveTransaction.to_, SuaveTransaction.blobGas,
      SuaveTransaction.blobGasFeeCap, SuaveTransaction.blobHashes, hq, Option.bind]
    exact ⟨rfl, rfl, rfl, rfl, rfl, rfl, rfl, rfl, rfl, rfl, rfl⟩
  · intro hqg
    have hstep : e2.effectiveGasPrice (Ptr.addr dst) baseFee h =
        q.effectiveGasPrice (Ptr.addr dst) baseFee h := by
      simp only [SuaveTransaction.effectiveGasPrice, hq, Option.bind]
      rfl
    rw [hstep]
    exact big.Set_returns dst q.GasPrice h hqg
  · simp only [SuaveTransaction.accessList, SuaveTransaction.gas, SuaveTransaction.gasPrice,
      SuaveTransaction.gasTipCap, SuaveTransaction.gasFeeCap, SuaveTransaction.value,
      SuaveTransaction.nonce, SuaveTransaction.to_, SuaveTransaction.blobGas,
      SuaveTransaction.blobGasFeeCap, SuaveTransaction.blobHashes, hI, Option.bind,
      and_self]
  · intro d b m
    simp only [SuaveTransaction.effectiveGasPrice, hI, Option.bind]
  · cases hc : TxData.copy I h with
    | none => simp [SuaveTransaction.copy, NewTx, hI, hc]
    | some p =>
      obtain ⟨I2, h1⟩ := p
      rw [e.env_copy_eq h I I2 h1 hI hc]
      rfl

/-- Witness of C16: the request with a nil `GasPrice` and the envelope around
it for the accessors and `copy`, the request of the scenario and its envelope
for `effectiveGasPrice`, and the envelope around an envelope for the
forwarding. -/
theorem operations_return_witness :
    (exampleUnpricedEnvelope.ConfidentialComputeRequest.inner = some exampleUnpriced ∧
     exampleNested.ConfidentialComputeRequest.inner = some exampleEnvelope ∧
     exampleEnvelope.ConfidentialComputeRequest.inner = some exampleRequest ∧
     exampleUnpriced.GasPrice = Ptr.nil ∧ exampleRequest.GasPrice ≠ Ptr.nil) ∧
    (TxData.gasPrice exampleUnpriced = some Ptr.nil ∧
     (∃ c h2, exampleUnpriced.copy exampleHeap = some (c, h2)) ∧
     exampleUnpricedEnvelope.gasPrice = some Ptr.nil ∧
     (∃ c h2, exampleUnpricedEnvelope.copy exampleHeap = some (c, h2)) ∧
     (exampleNested.copy exampleHeap).isSome =
       (TxData.copy exampleEnvelope exampleHeap).isSome) ∧
    ((∃ h2, exampleRequest.effectiveGasPrice (Ptr.addr 3) Ptr.nil exampleHeap =
       some (Ptr.addr 3, h2)) ∧
     (∃ h2, exampleEnvelope.effectiveGasPrice (Ptr.addr 3) Ptr.nil exampleHeap =
       some (Ptr.addr 3, h2))) :=
  ⟨⟨rfl, rfl, rfl, rfl, by decide⟩,
   ⟨(operations_return exampleUnpriced exampleUnpricedEnvelope exampleUnpriced exampleNested
       exampleEnvelope exampleHeap 3 Ptr.nil rfl rfl).1.1.2.2.1,
    (operations_return exampleUnpriced exampleUnpricedEnvelope exampleUnpriced exampleNested
       exampleEnvelope exampleHeap 3 Ptr.nil rfl rfl).1.2.1,
    (operations_return exampleUnpriced exampleUnpricedEnvelope exampleUnpriced exampleNested
       exampleEnvelope exampleHeap 3 Ptr.nil rfl rfl).2.1.1.2.2.1,
    (operations_return exampleUnpriced exampleUnpricedEnvelope exampleUnpriced exampleNested
       exampleEnvelope exampleHeap 3 Ptr.nil rfl rfl).2.1.2.1,
    (operations_return exampleUnpriced exampleUnpricedEnvelope exampleUnpriced exampleNested
       exampleEnvelope exampleHeap 3 Ptr.nil rfl rfl).2.2.2.2⟩,
   ⟨(operations_return exampleRequest exampleEnvelope exampleRequest exampleNested
       exampleEnvelope exampleHeap 3 Ptr.nil rfl rfl).1.2.2 (by decide),
    (operations_return exampleRequest exampleEnvelope exampleRequest exampleNested
       exampleEnvelope exampleHeap 3 Ptr.nil rfl rfl).2.1.2.2 (by decide)⟩⟩

/-- C17. For every request `r` living in the memory, `r.copy().copy()` is
field for field equal, by value, to `r.copy()`; and when none of the six
integer fields of `r` is nil, `r.copy()` is field for field equal, by value,
to `r`. -/
theorem copy_idempotent (r : ConfidentialComputeRequest) (h : Heap) (hwf : r.allocatedIn h) :
    ∃ c h1 c2 h2, r.copy h = some (c, h1) ∧ c.copy h1 = some (c2, h2) ∧
      c2.valueIn h2 = c.valueIn h1 ∧
      (r.Value ≠ Ptr.nil → r.GasPrice ≠ Ptr.nil → r.ChainID ≠ Ptr.nil → r.V ≠ Ptr.nil →
        r.R ≠ Ptr.nil → r.S ≠ Ptr.nil → c.valueIn h1 = r.valueIn h) := by
  refine ⟨_, _, _, _, r.copy_eq_copied h, (r.copied h).copy_eq_copied (r.copiedHeap h), ?_, ?_⟩
  · rw [(r.copied h).copied_valueIn (r.copiedHeap h) (r.copied_allocatedIn h),
      r.copied_valueIn h hwf, RequestValue.withZeroDefaults_idem]
  · intro hV hG hC hv hr hs
    rw [r.copied_valueIn h hwf, r.withZeroDefaults_of_non_nil h hV hG hC hv hr hs]

/-- Witness of C17: the signed request of the scenario, none of whose six
integer fields is nil. -/
theorem copy_idempotent_witness :
    exampleSignedRequest.allocatedIn exampleHeap ∧
    ∃ c h1 c2 h2, exampleSignedRequest.copy exampleHeap = some (c, h1) ∧
      c.copy h1 = some (c2, h2) ∧ c2.valueIn h2 = c.valueIn h1 ∧
      (exampleSignedRequest.Value ≠ Ptr.nil → exampleSignedRequest.GasPrice ≠ Ptr.nil →
        exampleSignedRequest.ChainID ≠ Ptr.nil → exampleSignedRequest.V ≠ Ptr.nil →
        exampleSignedRequest.R ≠ Ptr.nil → exampleSignedRequest.S ≠ Ptr.nil →
        c.valueIn h1 = exampleSignedRequest.valueIn exampleHeap) :=
  ⟨by decide, copy_idempotent exampleSignedRequest exampleHeap (by decide)⟩

/-- C18. For every request `r` living in the memory, one with a nil `GasPrice`
included, `effectiveGasPrice(dst, baseFee)` called on `r.copy()` with a
destination cell `dst` returns `dst`, for every `baseFee`, holding the value of
the `GasPrice` of `r`, or 0 when that is nil; whereas called on an `r` whose
`GasPrice` is nil it panics for a non-nil `dst`, and whatever pointer it
returns otherwise points to no integer. -/
theorem copy_repairs_effectiveGasPrice (r : ConfidentialComputeRequest) (h : Heap)
    (hwf : r.allocatedIn h) (dst : Nat) (baseFee : Ptr) :
    (∃ c h1 h2, r.copy h = some (c, h1) ∧
      c.effectiveGasPrice (Ptr.addr dst) baseFee h1 = some (Ptr.addr dst, h2) ∧
      h2.intAt (Ptr.addr dst) = some ((h.intAt r.GasPrice).getD 0)) ∧
    (r.GasPrice = Ptr.nil →
      r.effectiveGasPrice (Ptr.addr dst) baseFee h = none ∧
      ∀ (d p : Ptr) (h2 : Heap),
        r.effectiveGasPrice d baseFee h = some (p, h2) → h2.intAt p = none) := by
  constructor
  · have hval := congrArg RequestValue.GasPrice (r.copied_valueIn h hwf)
    have hval2 : (r.copiedHeap h).intAt (r.copied h).GasPrice =
        some ((h.intAt r.GasPrice).getD 0) := hval
    obtain ⟨h2, hset, hat⟩ := big.Set_value dst (r.copied h).GasPrice (r.copiedHeap h) _ hval2
    exact ⟨_, _, h2, r.copy_eq_copied h, hset, hat⟩
  · intro hnil
    refine ⟨?_, ?_⟩
    · simp [ConfidentialComputeRequest.effectiveGasPrice, big.Set, hnil]
    · intro d p h2 hres
      cases d with
      | nil =>
        simp only [ConfidentialComputeRequest.effectiveGasPrice, big.Set, hnil, if_true,
          Option.some.injEq, Prod.mk.injEq] at hres
        rw [← hres.1]
        rfl
      | addr a =>
        simp [ConfidentialComputeRequest.effectiveGasPrice, big.Set, hnil] at hres

/-- Witness of C18: the request of the scenario with a nil `GasPrice`. -/
theorem copy_repairs_effectiveGasPrice_witness :
    (exampleUnpriced.allocatedIn exampleHeap ∧ exampleUnpriced.GasPrice = Ptr.nil) ∧
    (∃ c h1 h2, exampleUnpriced.copy exampleHeap = some (c, h1) ∧
      c.effectiveGasPrice (Ptr.addr 3) (Ptr.addr 2) h1 = some (Ptr.addr 3, h2) ∧
      h2.intAt (Ptr.addr 3) = some ((exampleHeap.intAt exampleUnpriced.GasPrice).getD 0)) ∧
    exampleUnpriced.effectiveGasPrice (Ptr.addr 3) (Ptr.addr 2) exampleHeap = none :=
  ⟨⟨by decide, rfl⟩,
   (copy_repairs_effectiveGasPrice exampleUnpriced exampleHeap (by decide) 3 (Ptr.addr 2)).1,
   ((copy_repairs_effectiveGasPrice exampleUnpriced exampleHeap (by decide) 3
      (Ptr.addr 2)).2 rfl).1⟩

/-- C19. For every request, `gasTipCap()` and `gasFeeCap()` return what
`gasPrice()` returns, the stored `GasPrice`; hence for an envelope wrapping a
request, `gasPrice()`, `gasTipCap()` and `gasFeeCap()` all return the
`GasPrice` of the request. -/
theorem fee_accessors_are_gasPrice (r : ConfidentialComputeRequest)
    (e : SuaveTransaction ConfidentialComputeRequest) (q : ConfidentialComputeRequest)
    (hq : e.ConfidentialComputeRequest.inner = some q) :
    (r.gasPrice = r.GasPrice ∧ r.gasTipCap = r.gasPrice ∧ r.gasFeeCap = r.gasPrice) ∧
    (e.gasPrice = some q.GasPrice ∧ e.gasTipCap = some q.GasPrice ∧
     e.gasFeeCap = some q.GasPrice) := by
  refine ⟨⟨rfl, rfl, rfl⟩, ?_⟩
  simp only [SuaveTransaction.gasPrice, SuaveTransaction.gasTipCap, SuaveTransaction.gasFeeCap,
    hq, Option.bind]
  exact ⟨rfl, rfl, rfl⟩

/-- Witness of C19: the request and the envelope of the scenario, with
`GasPrice` the cell 0 holding 100. -/
theorem fee_accessors_are_gasPrice_witness :
    exampleEnvelope.ConfidentialComputeRequest.inner = some exampleRequest ∧
    ((exampleRequest.gasPrice = exampleRequest.GasPrice ∧
      exampleRequest.gasTipCap = exampleRequest.gasPrice ∧
      exampleRequest.gasFeeCap = exampleRequest.gasPrice) ∧
     (exampleEnvelope.gasPrice = some exampleRequest.GasPrice ∧
      exampleEnvelope.gasTipCap = some exampleRequest.GasPrice ∧
      exampleEnvelope.gasFeeCap = some exampleRequest.GasPrice)) :=
  ⟨rfl, fee_accessors_are_gasPrice exampleRequest exampleEnvelope exampleRequest rfl⟩

/-- C20. For every envelope `e` around a request `q`, both living in the
memory, with no nil integer field in `q` and no nil `ChainID`, `V`, `R`, `S` in
`e`, `e.copy()` returns an envelope on which each of `txType()`, `chainID()`,
`data()`, `gas()`, `gasPrice()`, `gasTipCap()`, `gasFeeCap()`, `value()`,
`nonce()`, `to()`, `accessList()`, `blobGas()`, `blobGasFeeCap()`,
`blobHashes()` and `rawSignatureValues()` returns a value equal to what it
returns on `e`, and the `data()` and `rawSignatureValues()` of the wrapped
request are likewise equal in value. -/
theorem copy_preserves_observations (e : SuaveTransaction ConfidentialComputeRequest)
    (q : ConfidentialComputeRequest) (h : Heap)
    (hq : e.ConfidentialComputeRequest.inner = some q)
    (he : e.allocatedIn h) (hqa : q.allocatedIn h)
    (hV : q.Value ≠ Ptr.nil) (hG : q.GasPrice ≠ Ptr.nil) (hC : q.ChainID ≠ Ptr.nil)
    (hv : q.V ≠ Ptr.nil) (hr : q.R ≠ Ptr.nil) (hs : q.S ≠ Ptr.nil)
    (eC : e.ChainID ≠ Ptr.nil) (eV : e.V ≠ Ptr.nil) (eR : e.R ≠ Ptr.nil)
    (eS : e.S ≠ Ptr.nil) :
    ∃ c h2 q2, e.copy h = some (c, h2) ∧ c.ConfidentialComputeRequest.inner = some q2 ∧
      c.txType = e.txType ∧
      h2.intAt c.chainID = h.intAt e.chainID ∧
      h2.bytesAt c.data = h.bytesAt e.data ∧
      c.gas = e.gas ∧
      c.gasPrice.map h2.intAt = e.gasPrice.map h.intAt ∧
      c.gasTipCap.map h2.intAt = e.gasTipCap.map h.intAt ∧
      c.gasFeeCap.map h2.intAt = e.gasFeeCap.map h.intAt ∧
      c.value.map h2.intAt = e.value.map h.intAt ∧
      c.nonce = e.nonce ∧
      c.to_.map h2.addrAt = e.to_.map h.addrAt ∧
      c.accessList = e.accessList ∧
      c.blobGas = e.blobGas ∧
      c.blobGasFeeCap.map h2.intAt = e.blobGasFeeCap.map h.intAt ∧
      c.blobHashes = e.blobHashes ∧
      (h2.intAt c.rawSignatureValues.1 = h.intAt e.rawSignatureValues.1 ∧
       h2.intAt c.rawSignatureValues.2.1 = h.intAt e.rawSignatureValues.2.1 ∧
       h2.intAt c.rawSignatureValues.2.2 = h.intAt e.rawSignatureValues.2.2) ∧
      h2.bytesAt q2.data = h.bytesAt q.data ∧
      (h2.intAt q2.rawSignatureValues.1 = h.intAt q.rawSignatureValues.1 ∧
       h2.intAt q2.rawSignatureValues.2.1 = h.intAt q.rawSignatureValues.2.1 ∧
       h2.intAt q2.rawSignatureValues.2.2 = h.intAt q.rawSignatureValues.2.2) := by
  have hK : (e.copied (q.copied h) (q.copiedHeap h)).valueIn (e.copiedHeap (q.copiedHeap h)) =
      e.valueIn h := by
    rw [e.env_copied_valueIn h q hq he hqa,
      e.env_withZeroDefaults_of_non_nil h q hq hV hG hC hv hr hs eC eV eR eS]
  have hIn : (q.copied h).valueIn (e.copiedHeap (q.copiedHeap h)) = q.valueIn h := by
    have h1 := congrArg EnvelopeValue.ConfidentialComputeRequest hK
    simp only [SuaveTransaction.valueIn, hq, Option.map] at h1
    exact Option.some.inj h1
  have kC := congrArg EnvelopeValue.ChainID hK
  have kV := congrArg EnvelopeValue.V hK
  have kR := congrArg EnvelopeValue.R hK
  have kS := congrArg EnvelopeValue.S hK
  have kRes := congrArg EnvelopeValue.ConfidentialComputeResult hK
  have qG := congrArg RequestValue.GasPrice hIn
  have qVal := congrArg RequestValue.Value hIn
  have qTo := congrArg RequestValue.To hIn
  have qD := congrArg RequestValue.Data hIn
  have qV := congrArg RequestValue.V hIn
  have qR := congrArg RequestValue.R hIn
  have qS := congrArg RequestValue.S hIn
  refine ⟨_, _, q.copied h, e.copy_request h q hq, rfl, rfl, kC, kRes, ?_, ?_, ?_, ?_, ?_, ?_,
    ?_, ?_, ?_, ?_, ?_, ⟨kV, kR, kS⟩, qD, ⟨qV, qR, qS⟩⟩
  · simp only [SuaveTransaction.gas, hq, Option.bind]
    rfl
  · simp only [SuaveTransaction.gasPrice, hq, Option.bind]
    exact congrArg some qG
  · simp only [SuaveTransaction.gasTipCap, hq, Option.bind]
    exact congrArg some qG
  · simp only [SuaveTransaction.gasFeeCap, hq, Option.bind]
    exact congrArg some qG
  · simp only [SuaveTransaction.value, hq, Option.bind]
    exact congrArg some qVal
  · simp only [SuaveTransaction.nonce, hq, Option.bind]
    rfl
  · simp only [SuaveTransaction.to_, hq, Option.bind]
    exact congrArg some qTo
  · simp only [SuaveTransaction.accessList, hq, Option.bind]
    rfl
  · simp only [SuaveTransaction.blobGas, hq, Option.bind]
    rfl
  · simp only [SuaveTransaction.blobGasFeeCap, hq, Option.bind]
    rfl
  · simp only [SuaveTransaction.blobHashes, hq, Option.bind]
    rfl

/-- Witness of C20: the fully signed envelope of the scenario. -/
theorem copy_preserves_observations_witness :
    (exampleFullySigned.ConfidentialComputeRequest.inner = some exampleSignedRequest ∧
     exampleFullySigned.allocatedIn exampleHeap ∧
     exampleSignedRequest.allocatedIn exampleHeap ∧
     exampleSignedRequest.Value ≠ Ptr.nil ∧ exampleSignedRequest.GasPrice ≠ Ptr.nil ∧
     exampleSignedRequest.ChainID ≠ Ptr.nil ∧ exampleSignedRequest.V ≠ Ptr.nil ∧
     exampleSignedRequest.R ≠ Ptr.nil ∧ exampleSignedRequest.S ≠ Ptr.nil ∧
     exampleFullySigned.ChainID ≠ Ptr.nil ∧ exampleFullySigned.V ≠ Ptr.nil ∧
     exampleFullySigned.R ≠ Ptr.nil ∧ exampleFullySigned.S ≠ Ptr.nil) ∧
    (∃ c h2 q2, exampleFullySigned.copy exampleHeap =
      some (c, h2) ∧ c.ConfidentialComputeRequest.inner = some q2 ∧
      c.txType = exampleFullySigned.txType ∧
      h2.intAt c.chainID = exampleHeap.intAt exampleFullySigned.chainID ∧
      h2.bytesAt c.data = exampleHeap.bytesAt exampleFullySigned.data ∧
      c.gas = exampleFullySigned.gas ∧
      c.gasPrice.map h2.intAt = exampleFullySigned.gasPrice.map exampleHeap.intAt ∧
      c.gasTipCap.map h2.intAt = exampleFullySigned.gasTipCap.map exampleHeap.intAt ∧
      c.gasFeeCap.map h2.intAt = exampleFullySigned.gasFeeCap.map exampleHeap.intAt ∧
      c.value.map h2.intAt = exampleFullySigned.value.map exampleHeap.intAt ∧
      c.nonce = exampleFullySigned.nonce ∧
      c.to_.map h2.addrAt = exampleFullySigned.to_.map exampleHeap.addrAt ∧
      c.accessList = exampleFullySigned.accessList ∧
      c.blobGas = exampleFullySigned.blobGas ∧
      c.blobGasFeeCap.map h2.intAt = exampleFullySigned.blobGasFeeCap.map exampleHeap.intAt ∧
      c.blobHashes = exampleFullySigned.blobHashes ∧
      (h2.intAt c.rawSignatureValues.1 =
        exampleHeap.intAt exampleFullySigned.rawSignatureValues.1 ∧
       h2.intAt c.rawSignatureValues.2.1 =
         exampleHeap.intAt exampleFullySigned.rawSignatureValues.2.1 ∧
       h2.intAt c.rawSignatureValues.2.2 =
         exampleHeap.intAt exampleFullySigned.rawSignatureValues.2.2) ∧
      h2.bytesAt q2.data = exampleHeap.bytesAt exampleSignedRequest.data ∧
      (h2.intAt q2.rawSignatureValues.1 =
        exampleHeap.intAt exampleSignedRequest.rawSignatureValues.1 ∧
       h2.intAt q2.rawSignatureValues.2.1 =
         exampleHeap.intAt exampleSignedRequest.rawSignatureValues.2.1 ∧
       h2.intAt q2.rawSignatureValues.2.2 =
         exampleHeap.intAt exampleSignedRequest.rawSignatureValues.2.2)) :=
  ⟨⟨rfl, by decide, by decide, by decide, by decide, by decide, by decide, by decide,
    by decide, by decide, by decide, by decide, by decide⟩,
   copy_preserves_observations exampleFullySigned exampleSignedRequest exampleHeap rfl
     (by decide) (by decide) (by decide) (by decide) (by decide) (by decide) (by decide)
     (by decide) (by decide) (by decide) (by decide) (by decide)⟩

end Confidential
